import Mathlib

/-!
Verification development for the rate-limited request queue and pipeline
orchestrator of the trading-strategy generator repository.

The central component is the `RateLimiter` class (`utils/rateLimiter.ts`):
a single-driver FIFO queue that gates asynchronous work against a lazily
reset 60-second window, a minimum inter-request spacing, and bounded
exponential-backoff retry on throttling (HTTP 429 style) errors.

Timing model used throughout: wall-clock instants are integers
(milliseconds, like `Date.now()`); `sleep(d)` returns exactly `d`
milliseconds later; pure computation takes no time; a `setTimeout`
callback fires exactly when its delay elapses.  Each submitted unit's
action is described by, per attempt, a duration (milliseconds, a natural
number) and a result (success value or error shape).
-/

namespace SolidityDev

/-- JS `String.prototype.includes`: `sub` occurs contiguously in `s`. -/
def strContainsSub (s sub : String) : Bool :=
  decide (List.IsInfix sub.data s.data)

/-- JS `String.prototype.toLowerCase`, restricted to the per-character map
(adequate for the ASCII patterns the error classifier looks for). -/
def strToLower (s : String) : String :=
  String.mk (s.data.map Char.toLower)

/-- Configuration of one `RateLimiter` instance (`RateLimitConfig`). -/
structure RateLimitConfig where
  requestsPerMinute : Nat
  retryDelaySeconds : Nat
  maxRetries : Nat
  deriving Repr, DecidableEq

/-- The mutable counters of a `RateLimiter` instance: `lastRequestTime`,
`requestCount` and `windowStart` fields of the class. -/
structure LimiterState where
  lastRequestTime : Int
  requestCount : Nat
  windowStart : Int
  deriving Repr, DecidableEq

/-- Shape of a JS error value, as far as `is429Error` inspects it: an
optional numeric `status` field and an optional string `message`. -/
structure ErrorInfo where
  status : Option Int
  message : Option String
  deriving Repr, DecidableEq

/-- `RateLimiter.is429Error`, transcribed disjunct by disjunct:
`error?.message?.includes('429') || error?.status === 429 ||
error?.message?.toLowerCase().includes('too many requests') ||
error?.message?.toLowerCase().includes('rate limit')`. -/
def is429Error (e : ErrorInfo) : Bool :=
  (match e.message with
   | some m => strContainsSub m "429"
   | none => false) ||
  (e.status == some 429) ||
  (match e.message with
   | some m => strContainsSub (strToLower m) "too many requests"
   | none => false) ||
  (match e.message with
   | some m => strContainsSub (strToLower m) "rate limit"
   | none => false)

/-- Result of `waitForRateLimit`: the updated counters and the wall-clock
instant at which the function returns (the dispatch moment). -/
structure WaitOutcome where
  state : LimiterState
  time : Int
  deriving Repr, DecidableEq

/-- `RateLimiter.waitForRateLimit`, called at wall-clock instant `now`.
Faithful transcription: `timeSinceWindowStart` is computed once from the
window start current at entry; the budget wait resets the counters after
sleeping; the minimum-spacing check uses the stale `now` captured at entry
and the `lastRequestTime` field (which this function never mutates). -/
def waitForRateLimit (cfg : RateLimitConfig) (s : LimiterState) (now : Int) :
    WaitOutcome :=
  let timeSinceWindowStart := now - s.windowStart
  -- Reset window if a minute has passed
  let s1 := if timeSinceWindowStart ≥ 60000 then
    { s with requestCount := 0, windowStart := now } else s
  -- If we've hit the rate limit, wait for the remaining window time
  let afterBudget : LimiterState × Int :=
    if s1.requestCount ≥ cfg.requestsPerMinute then
      let timeToWait := 60000 - timeSinceWindowStart
      if timeToWait > 0 then
        ({ s1 with requestCount := 0, windowStart := now + timeToWait },
         now + timeToWait)
      else (s1, now)
    else (s1, now)
  -- Also ensure minimum delay between requests
  let timeSinceLastRequest := now - s.lastRequestTime
  let minDelay := (cfg.retryDelaySeconds : Int) * 1000
  if timeSinceLastRequest < minDelay then
    { state := afterBudget.1,
      time := afterBudget.2 + (minDelay - timeSinceLastRequest) }
  else
    { state := afterBudget.1, time := afterBudget.2 }

/-- `RateLimiter.updateRequestCount`, run at wall-clock instant `now`
(the completion moment of a successful action). -/
def updateRequestCount (s : LimiterState) (now : Int) : LimiterState :=
  { s with requestCount := s.requestCount + 1, lastRequestTime := now }

instance {ε α : Type _} [DecidableEq ε] [DecidableEq α] :
    DecidableEq (Except ε α)
  | .ok a, .ok b => decidable_of_iff (a = b) (by simp)
  | .ok _, .error _ => isFalse (by simp)
  | .error _, .ok _ => isFalse (by simp)
  | .error a, .error b => decidable_of_iff (a = b) (by simp)

/-- One attempt of a unit's `execute` action: how long the awaited call
takes (milliseconds) and whether it resolves (with a numeric payload,
standing in for the arbitrary result type) or rejects with an error. -/
structure AttemptSpec where
  duration : Nat
  result : Except ErrorInfo Nat
  deriving Repr, DecidableEq

/-- A `QueuedRequest`: id, mutable `retryCount`, and the behaviour of its
`execute` action, given per attempt index (the attempt made while
`retryCount = k` is `behavior k`). -/
structure QUnit where
  id : Nat
  retryCount : Nat
  behavior : Nat → AttemptSpec

/-- A pending `setTimeout` callback scheduled by the retry branch of
`processQueue`: at `fireTime` it unshifts `unit` to the queue front and
re-triggers `processQueue`. -/
structure PendingTimer where
  fireTime : Int
  unit : QUnit

/-- One dispatch (begin of an `execute` call) recorded for analysis:
the unit's id, the wall-clock dispatch instant, the unit's `retryCount`
at dispatch, the `requestCount` the window held immediately after
`waitForRateLimit` returned, and whether this attempt succeeded. -/
structure DispatchEvent where
  unitId : Nat
  time : Int
  attempt : Nat
  preCount : Nat
  ok : Bool
  deriving Repr, DecidableEq

/-- Whole-system state of one `RateLimiter` instance together with the
JS event loop artifacts it uses: current wall-clock `time`, the
`requestQueue`, the pending retry timers, the window counters, plus two
logs (chronological dispatch events, and the settled promises). -/
structure SysState where
  time : Int
  queue : List QUnit
  timers : List PendingTimer
  limiter : LimiterState
  events : List DispatchEvent
  settled : List (Nat × Except ErrorInfo Nat)

/-- Remove the pending timer with the smallest `fireTime` (ties: the one
scheduled first), returning it and the remaining timers. -/
def extractEarliest : List PendingTimer → Option (PendingTimer × List PendingTimer)
  | [] => none
  | t :: rest =>
    match extractEarliest rest with
    | none => some (t, [])
    | some (m, others) =>
      if m.fireTime < t.fireTime then some (m, t :: others) else some (t, rest)

/-- Fire every timer whose `fireTime` has been reached, in firing order;
each callback unshifts its unit to the queue front (its nested
`processQueue` call is a no-op while the driver loop is active).
`n` is recursion fuel, always called with `n = timers.length`. -/
def fireDueAux (st : SysState) : Nat → SysState
  | 0 => st
  | n + 1 =>
    match extractEarliest st.timers with
    | none => st
    | some (tm, rest) =>
      if tm.fireTime ≤ st.time then
        fireDueAux { st with queue := tm.unit :: st.queue, timers := rest } n
      else st

/-- Fire all timers due at the current instant. -/
def fireDue (st : SysState) : SysState :=
  fireDueAux st st.timers.length

/-- One iteration body of the `while` loop of `processQueue` for the
shifted head unit `u` (with `rest` the remaining queue): run
`waitForRateLimit`, execute the action; on success run
`updateRequestCount` at the completion instant and resolve; on a
throttling error with retries remaining, increment `retryCount` and
schedule (`setTimeout`) the unit's reinsertion at the queue front after
`retryDelaySeconds * 2^(retryCount - 1)` seconds; otherwise reject. -/
def processHead (cfg : RateLimitConfig) (st : SysState) (u : QUnit)
    (rest : List QUnit) : SysState :=
  let w := waitForRateLimit cfg st.limiter st.time
  let spec := u.behavior u.retryCount
  let t2 := w.time + (spec.duration : Int)
  match spec.result with
  | .ok v =>
    { time := t2, queue := rest, timers := st.timers,
      limiter := updateRequestCount w.state t2,
      events := st.events ++
        [⟨u.id, w.time, u.retryCount, w.state.requestCount, true⟩],
      settled := st.settled ++ [(u.id, .ok v)] }
  | .error e =>
    if is429Error e = true ∧ u.retryCount < cfg.maxRetries then
      let rc := u.retryCount + 1
      let delay := cfg.retryDelaySeconds * 2 ^ (rc - 1)
      { time := t2, queue := rest,
        timers := st.timers ++
          [⟨t2 + (delay : Int) * 1000, { u with retryCount := rc }⟩],
        limiter := w.state,
        events := st.events ++
          [⟨u.id, w.time, u.retryCount, w.state.requestCount, false⟩],
        settled := st.settled }
    else
      { time := t2, queue := rest, timers := st.timers,
        limiter := w.state,
        events := st.events ++
          [⟨u.id, w.time, u.retryCount, w.state.requestCount, false⟩],
        settled := st.settled ++ [(u.id, .error e)] }

/-- One check of the driver loop: with a non-empty queue, process the
head; with an empty queue the loop exits (`isProcessing := false`), and
if a retry timer is pending the model advances the clock to the earliest
timer, whose callback re-triggers `processQueue`; with nothing pending
the system is quiescent (`none`). -/
def runStep (cfg : RateLimitConfig) (st : SysState) : Option SysState :=
  match st.queue with
  | [] =>
    match extractEarliest st.timers with
    | none => none
    | some (tm, tl) =>
      some { st with time := max st.time tm.fireTime,
                     queue := [tm.unit], timers := tl }
  | u :: rest => some (processHead cfg st u rest)

/-- The driver loop of `processQueue`, one fuel unit per loop check,
firing due `setTimeout` callbacks (which unshift their unit to the queue
front) at every check. -/
def run (cfg : RateLimitConfig) : Nat → SysState → SysState
  | 0, st => st
  | fuel + 1, st =>
    match runStep cfg (fireDue st) with
    | none => fireDue st
    | some st2 => run cfg fuel st2

/-! ### Elementary facts about `waitForRateLimit` -/

theorem waitForRateLimit_count_lt (cfg : RateLimitConfig) (s : LimiterState)
    (now : Int) (hR : 1 ≤ cfg.requestsPerMinute) :
    (waitForRateLimit cfg s now).state.requestCount < cfg.requestsPerMinute := by
  unfold waitForRateLimit
  dsimp only
  split_ifs <;> simp_all <;> omega

theorem waitForRateLimit_lastRequestTime (cfg : RateLimitConfig)
    (s : LimiterState) (now : Int) :
    (waitForRateLimit cfg s now).state.lastRequestTime = s.lastRequestTime := by
  unfold waitForRateLimit
  dsimp only
  split_ifs <;> rfl

theorem waitForRateLimit_time_ge_spacing (cfg : RateLimitConfig)
    (s : LimiterState) (now : Int) :
    s.lastRequestTime + (cfg.retryDelaySeconds : Int) * 1000 ≤
      (waitForRateLimit cfg s now).time := by
  unfold waitForRateLimit
  dsimp only
  split_ifs <;> dsimp only <;> omega

theorem waitForRateLimit_time_ge_now (cfg : RateLimitConfig)
    (s : LimiterState) (now : Int) :
    now ≤ (waitForRateLimit cfg s now).time := by
  unfold waitForRateLimit
  dsimp only
  split_ifs <;> dsimp only <;> omega

/-! ### Structural lemmas about the driver model -/

theorem fireDueAux_settled (n : Nat) :
    ∀ st : SysState, (fireDueAux st n).settled = st.settled := by
  induction n with
  | zero => intro st; rfl
  | succ n ih =>
    intro st
    unfold fireDueAux
    rcases h : extractEarliest st.timers with _ | ⟨tm, rest⟩
    · rfl
    · dsimp only
      split
      · exact ih _
      · rfl

theorem fireDueAux_events (n : Nat) :
    ∀ st : SysState, (fireDueAux st n).events = st.events := by
  induction n with
  | zero => intro st; rfl
  | succ n ih =>
    intro st
    unfold fireDueAux
    rcases h : extractEarliest st.timers with _ | ⟨tm, rest⟩
    · rfl
    · dsimp only
      split
      · exact ih _
      · rfl

theorem fireDueAux_limiter (n : Nat) :
    ∀ st : SysState, (fireDueAux st n).limiter = st.limiter := by
  induction n with
  | zero => intro st; rfl
  | succ n ih =>
    intro st
    unfold fireDueAux
    rcases h : extractEarliest st.timers with _ | ⟨tm, rest⟩
    · rfl
    · dsimp only
      split
      · exact ih _
      · rfl

theorem fireDue_no_timers (st : SysState) (h : st.timers = []) :
    fireDue st = st := by
  unfold fireDue
  rw [h]
  rfl

theorem run_idle (cfg : RateLimitConfig) (fuel : Nat) (st : SysState)
    (hq : st.queue = []) (ht : st.timers = []) : run cfg fuel st = st := by
  cases fuel with
  | zero => rfl
  | succ fuel =>
    unfold run
    rw [fireDue_no_timers st ht]
    unfold runStep
    rw [hq, ht]
    rfl

theorem processHead_settled (cfg : RateLimitConfig) (st : SysState)
    (u : QUnit) (rest : List QUnit) (x : Nat × Except ErrorInfo Nat)
    (hx : x ∈ st.settled) : x ∈ (processHead cfg st u rest).settled := by
  simp only [processHead]
  rcases hres : (u.behavior u.retryCount).result with e | v
  · dsimp only
    split
    · exact hx
    · exact List.mem_append_left _ hx
  · dsimp only
    exact List.mem_append_left _ hx

theorem runStep_settled (cfg : RateLimitConfig) (st st2 : SysState)
    (h : runStep cfg st = some st2) (x : Nat × Except ErrorInfo Nat)
    (hx : x ∈ st.settled) : x ∈ st2.settled := by
  unfold runStep at h
  rcases hq : st.queue with _ | ⟨u, rest⟩ <;> rw [hq] at h
  · rcases he : extractEarliest st.timers with _ | ⟨tm, tl⟩ <;> rw [he] at h
    · exact absurd h (by simp)
    · dsimp only at h
      cases h
      exact hx
  · dsimp only at h
    cases h
    exact processHead_settled cfg st u rest x hx

theorem run_settled_mono (cfg : RateLimitConfig) (fuel : Nat) :
    ∀ (st : SysState) (x : Nat × Except ErrorInfo Nat),
      x ∈ st.settled → x ∈ (run cfg fuel st).settled := by
  induction fuel with
  | zero => intro st x hx; exact hx
  | succ fuel ih =>
    intro st x hx
    have hfd : (fireDue st).settled = st.settled := fireDueAux_settled _ st
    unfold run
    rcases h : runStep cfg (fireDue st) with _ | st2
    · dsimp only
      rw [hfd]
      exact hx
    · dsimp only
      exact ih st2 x (runStep_settled cfg _ st2 h x (hfd ▸ hx))

/-! ### C5 — window invariant of `waitForRateLimit` -/

/-- C5: in every reachable limiter state, the dispatcher admits a dispatch
only while the window counter is strictly below the budget: exceeding the
budget forces the caller to wait out the remainder of the current window
(after which the counters are reset); the window is reset (count to 0,
start to the current instant) exactly when the elapsed time since the
window start is at least 60 seconds at the moment of the (lazy) check
performed by `waitForRateLimit` on each dispatch attempt.  The model has
no background timer: resets happen only inside `waitForRateLimit`. -/
theorem rateLimiter_window_invariant (cfg : RateLimitConfig)
    (s : LimiterState) (now : Int) :
    (1 ≤ cfg.requestsPerMinute →
      (waitForRateLimit cfg s now).state.requestCount < cfg.requestsPerMinute) ∧
    (60000 ≤ now - s.windowStart → 1 ≤ cfg.requestsPerMinute →
      (waitForRateLimit cfg s now).state.requestCount = 0 ∧
      (waitForRateLimit cfg s now).state.windowStart = now) ∧
    (now - s.windowStart < 60000 →
      s.requestCount < cfg.requestsPerMinute →
      (waitForRateLimit cfg s now).state.requestCount = s.requestCount ∧
      (waitForRateLimit cfg s now).state.windowStart = s.windowStart) ∧
    (now - s.windowStart < 60000 →
      cfg.requestsPerMinute ≤ s.requestCount →
      (waitForRateLimit cfg s now).state.requestCount = 0 ∧
      (waitForRateLimit cfg s now).state.windowStart = s.windowStart + 60000 ∧
      s.windowStart + 60000 ≤ (waitForRateLimit cfg s now).time) := by
  unfold waitForRateLimit
  dsimp only
  refine ⟨?_, ?_, ?_, ?_⟩ <;> · split_ifs <;> intros <;> simp_all <;> omega

/-- Witness for `rateLimiter_window_invariant`: a concrete exhausted
window (budget 2, count 2, 30 s into the window) is forced to wait until
the window end and is then reset. -/
theorem rateLimiter_window_invariant_witness :
    (waitForRateLimit ⟨2, 3, 3⟩ ⟨0, 2, 0⟩ 30000).state.requestCount = 0 ∧
    (waitForRateLimit ⟨2, 3, 3⟩ ⟨0, 2, 0⟩ 30000).state.windowStart = 60000 ∧
    (60000 : Int) ≤ (waitForRateLimit ⟨2, 3, 3⟩ ⟨0, 2, 0⟩ 30000).time := by
  have h := (rateLimiter_window_invariant ⟨2, 3, 3⟩ ⟨0, 2, 0⟩ 30000).2.2.2
    (by decide) (by decide)
  exact ⟨h.1, h.2.1, h.2.2⟩

/-! ### C6 — the throttling classifier -/

/-- The spec's description of the classifier, written from the spec's
words (refinement target for C6): an error is retryable throttling iff it
has a `status` of 429, or a message containing `"429"`, or a message
containing case-insensitive `"too many requests"` or `"rate limit"`. -/
def specThrottled (e : ErrorInfo) : Prop :=
  e.status = some 429 ∨
  ∃ m, e.message = some m ∧
    (List.IsInfix "429".data m.data ∨
     List.IsInfix "too many requests".data (strToLower m).data ∨
     List.IsInfix "rate limit".data (strToLower m).data)

/-- C6: `is429Error` classifies an error as retryable throttling exactly
when the spec's rate-limit signal is present, and an error it rejects is
terminal: the unit at the queue head is rejected with that very error
(settled, never retried). -/
theorem is429Error_spec (e : ErrorInfo) :
    (is429Error e = true ↔ specThrottled e) ∧
    (∀ (cfg : RateLimitConfig) (fuel : Nat) (t : Int) (u : QUnit)
      (rest : List QUnit) (lim : LimiterState) (ev : List DispatchEvent)
      (sd : List (Nat × Except ErrorInfo Nat)),
      (u.behavior u.retryCount).result = .error e → is429Error e = false →
      (u.id, Except.error e) ∈
        (run cfg (fuel + 1) ⟨t, u :: rest, [], lim, ev, sd⟩).settled) := by
  constructor
  · unfold is429Error specThrottled strContainsSub
    rcases e with ⟨st, msg⟩
    rcases msg with _ | m
    · simp
    · simp [beq_iff_eq]
      tauto
  · intro cfg fuel t u rest lim ev sd hres h429
    unfold run
    rw [fireDue_no_timers _ rfl]
    simp only [runStep]
    apply run_settled_mono
    simp only [processHead]
    rw [hres]
    dsimp only
    rw [if_neg (by simp [h429])]
    exact List.mem_append_right _ (List.mem_singleton.mpr rfl)

/-- Witness for `is429Error_spec`: a 500-status error is classified
terminal and the unit carrying it is rejected with it, unretried. -/
theorem is429Error_spec_witness :
    (is429Error ⟨some 500, some "boom"⟩ = true ↔
      specThrottled ⟨some 500, some "boom"⟩) ∧
    (7, Except.error (⟨some 500, some "boom"⟩ : ErrorInfo)) ∈
      (run ⟨2, 3, 3⟩ 3
        ⟨0, [⟨7, 0, fun _ => ⟨0, .error ⟨some 500, some "boom"⟩⟩⟩], [],
         ⟨0, 0, 0⟩, [], []⟩).settled := by
  have h := is429Error_spec ⟨some 500, some "boom"⟩
  exact ⟨h.1, h.2 ⟨2, 3, 3⟩ 2 0 _ [] ⟨0, 0, 0⟩ [] [] rfl (by decide)⟩

/-! ### C1 — per-minute budget: rolling windows versus the fixed window -/

/-- C1 counterexample: with `requestsPerMinute = 2` and
`retryDelaySeconds = 3`, four units that all succeed (the first taking
50 s, the rest instantaneous) are dispatched at 100000, 153000, 163000
and 166000 ms.  The last three dispatches all lie inside the rolling
60-second interval `[153000, 166000]` (13 s wide), so 3 > 2 units are
dispatched within one rolling 60-second window: the limiter only
enforces its lazily-reset fixed window, not a rolling one. -/
theorem rateLimiter_rolling_window_counterexample :
    ((run ⟨2, 3, 3⟩ 9
        ⟨100000,
         [⟨1, 0, fun _ => ⟨50000, .ok 0⟩⟩, ⟨2, 0, fun _ => ⟨0, .ok 0⟩⟩,
          ⟨3, 0, fun _ => ⟨0, .ok 0⟩⟩, ⟨4, 0, fun _ => ⟨0, .ok 0⟩⟩],
         [], ⟨0, 0, 100000⟩, [], []⟩).events.map DispatchEvent.time =
      [100000, 153000, 163000, 166000]) ∧
    (⟨2, 3, 3⟩ : RateLimitConfig).requestsPerMinute = 2 ∧
    ((166000 : Int) - 153000 < 60000) := by
  refine ⟨by decide, rfl, by decide⟩

theorem run_events_mono (cfg : RateLimitConfig) (fuel : Nat) :
    ∀ (st : SysState) (e : DispatchEvent),
      e ∈ st.events → e ∈ (run cfg fuel st).events := by
  induction fuel with
  | zero => intro st e he; exact he
  | succ fuel ih =>
    intro st e he
    have hfd : (fireDue st).events = st.events := fireDueAux_events _ st
    unfold run
    rcases h : runStep cfg (fireDue st) with _ | st2
    · dsimp only
      rw [hfd]
      exact he
    · dsimp only
      apply ih st2 e
      unfold runStep at h
      rcases hq : (fireDue st).queue with _ | ⟨u, rest⟩ <;> rw [hq] at h
      · rcases hx : extractEarliest (fireDue st).timers with _ | ⟨tm, tl⟩ <;>
          rw [hx] at h
        · exact absurd h (by simp)
        · cases h
          dsimp only
          rw [hfd]
          exact he
      · dsimp only at h
        cases h
        simp only [processHead]
        rcases hres : (u.behavior u.retryCount).result with e429 | v <;> dsimp only
        · split <;> · dsimp only; rw [hfd]; exact List.mem_append_left _ he
        · rw [hfd]
          exact List.mem_append_left _ he

theorem runStep_events_preCount (cfg : RateLimitConfig) (st st2 : SysState)
    (hR : 1 ≤ cfg.requestsPerMinute) (h : runStep cfg st = some st2)
    (e : DispatchEvent) (he : e ∈ st2.events) :
    e ∈ st.events ∨ e.preCount < cfg.requestsPerMinute := by
  unfold runStep at h
  rcases hq : st.queue with _ | ⟨u, rest⟩ <;> rw [hq] at h
  · rcases hx : extractEarliest st.timers with _ | ⟨tm, tl⟩ <;> rw [hx] at h
    · exact absurd h (by simp)
    · cases h
      exact Or.inl he
  · dsimp only at h
    cases h
    have hw := waitForRateLimit_count_lt cfg st.limiter st.time hR
    simp only [processHead] at he
    rcases hres : (u.behavior u.retryCount).result with e429 | v <;>
      rw [hres] at he <;> dsimp only at he
    · rcases (by split at he <;> [skip; skip] <;> exact he :
        e ∈ st.events ++
          [⟨u.id, (waitForRateLimit cfg st.limiter st.time).time, u.retryCount,
            (waitForRateLimit cfg st.limiter st.time).state.requestCount, false⟩])
        with h'
      rcases List.mem_append.mp h' with h1 | h2
      · exact Or.inl h1
      · right
        rw [List.mem_singleton.mp h2]
        exact hw
    · rcases List.mem_append.mp he with h1 | h2
      · exact Or.inl h1
      · right
        rw [List.mem_singleton.mp h2]
        exact hw

theorem run_events_preCount (cfg : RateLimitConfig) (fuel : Nat)
    (hR : 1 ≤ cfg.requestsPerMinute) :
    ∀ (st : SysState) (e : DispatchEvent), e ∈ (run cfg fuel st).events →
      e ∈ st.events ∨ e.preCount < cfg.requestsPerMinute := by
  induction fuel with
  | zero => intro st e he; exact Or.inl he
  | succ fuel ih =>
    intro st e he
    have hfd : (fireDue st).events = st.events := fireDueAux_events _ st
    unfold run at he
    rcases h : runStep cfg (fireDue st) with _ | st2 <;> rw [h] at he
    · dsimp only at he
      rw [hfd] at he
      exact Or.inl he
    · dsimp only at he
      rcases ih st2 e he with h1 | h2
      · rcases runStep_events_preCount cfg _ st2 hR h e h1 with h3 | h4
        · rw [hfd] at h3
          exact Or.inl h3
        · exact Or.inr h4
      · exact Or.inr h2

/-- C1 amended: what the code actually guarantees is the fixed-window
budget, not a rolling one: every dispatch is admitted only while the
counter of the limiter's current (lazily reset) 60-second window is
strictly below `requestsPerMinute` — hence at most `requestsPerMinute`
counted (successful) dispatches fit in any one fixed window — but a
rolling 60-second interval spanning a window reset can see more than
`requestsPerMinute` dispatches. -/
theorem rateLimiter_fixed_window_bound (cfg : RateLimitConfig)
    (fuel : Nat) (st : SysState) (hR : 1 ≤ cfg.requestsPerMinute)
    (hev : st.events = []) :
    ∀ e ∈ (run cfg fuel st).events, e.preCount < cfg.requestsPerMinute := by
  intro e he
  rcases run_events_preCount cfg fuel hR st e he with h | h
  · rw [hev] at h
    exact absurd h (List.not_mem_nil e)
  · exact h

/-- Witness for `rateLimiter_fixed_window_bound` on the counterexample
scenario: every dispatch there sees a window counter below 2. -/
theorem rateLimiter_fixed_window_bound_witness :
    ((run ⟨2, 3, 3⟩ 9
        ⟨100000,
         [⟨1, 0, fun _ => ⟨50000, .ok 0⟩⟩, ⟨2, 0, fun _ => ⟨0, .ok 0⟩⟩,
          ⟨3, 0, fun _ => ⟨0, .ok 0⟩⟩, ⟨4, 0, fun _ => ⟨0, .ok 0⟩⟩],
         [], ⟨0, 0, 100000⟩, [], []⟩).events.all
      (fun e => e.preCount < 2)) = true := by
  rw [List.all_eq_true]
  intro e he
  simpa using rateLimiter_fixed_window_bound ⟨2, 3, 3⟩ 9 _ (by decide) rfl
    e he

/-! ### C4 — minimum spacing between dispatches -/

/-- C4 counterexample: unit 1's action fails terminally (HTTP 500) at
100000 ms; unit 2 is then dispatched at the very same instant, a gap of
0 ms < `retryDelaySeconds` = 3 s.  The spacing is enforced from
`lastRequestTime`, which `updateRequestCount` stamps only after a
*successful* action, so the gap guarantee does not hold after a failed
dispatch. -/
theorem rateLimiter_spacing_counterexample :
    ((run ⟨2, 3, 3⟩ 6
        ⟨100000,
         [⟨1, 0, fun _ => ⟨0, .error ⟨some 500, some "boom"⟩⟩⟩,
          ⟨2, 0, fun _ => ⟨0, .ok 0⟩⟩],
         [], ⟨0, 0, 100000⟩, [], []⟩).events.map
          (fun e => (e.time, e.ok)) =
      [(100000, false), (100000, true)]) ∧
    (⟨2, 3, 3⟩ : RateLimitConfig).retryDelaySeconds = 3 ∧
    ((100000 : Int) - 100000 < 3 * 1000) := by
  refine ⟨by decide, rfl, by decide⟩

theorem processHead_spaced (cfg : RateLimitConfig) (st : SysState)
    (u : QUnit) (rest : List QUnit)
    (h1 : List.Chain'
      (fun a b => a.ok = true →
        a.time + (cfg.retryDelaySeconds : Int) * 1000 ≤ b.time) st.events)
    (h2 : ∀ e, st.events.getLast? = some e → e.ok = true →
      e.time ≤ st.limiter.lastRequestTime) :
    List.Chain'
      (fun a b => a.ok = true →
        a.time + (cfg.retryDelaySeconds : Int) * 1000 ≤ b.time)
      (processHead cfg st u rest).events ∧
    (∀ e, (processHead cfg st u rest).events.getLast? = some e →
      e.ok = true →
      e.time ≤ (processHead cfg st u rest).limiter.lastRequestTime) := by
  have hsp := waitForRateLimit_time_ge_spacing cfg st.limiter st.time
  have hlast := waitForRateLimit_lastRequestTime cfg st.limiter st.time
  have hchain : ∀ b : DispatchEvent,
      b.time = (waitForRateLimit cfg st.limiter st.time).time →
      List.Chain'
        (fun a b => a.ok = true →
          a.time + (cfg.retryDelaySeconds : Int) * 1000 ≤ b.time)
        (st.events ++ [b]) := by
    intro b hb
    rw [List.chain'_append]
    refine ⟨h1, List.chain'_singleton b, ?_⟩
    intro x hx y hy hxok
    simp only [List.head?_cons, Option.mem_def, Option.some.injEq] at hy
    subst hy
    have := h2 x hx hxok
    omega
  simp only [processHead]
  rcases hres : (u.behavior u.retryCount).result with e | v
  · dsimp only
    split
    · constructor
      · exact hchain _ rfl
      · intro ev hev hok
        dsimp only at hev
        rw [List.getLast?_concat] at hev
        cases hev
        simp at hok
    · constructor
      · exact hchain _ rfl
      · intro ev hev hok
        dsimp only at hev
        rw [List.getLast?_concat] at hev
        cases hev
        simp at hok
  · dsimp only
    constructor
    · exact hchain _ rfl
    · intro ev hev hok
      rw [List.getLast?_concat] at hev
      cases hev
      dsimp only [updateRequestCount]
      have : (0 : Int) ≤ ((u.behavior u.retryCount).duration : Int) := by
        exact_mod_cast Nat.zero_le _
      omega

theorem run_spaced (cfg : RateLimitConfig) (fuel : Nat) :
    ∀ st : SysState,
      List.Chain'
        (fun a b => a.ok = true →
          a.time + (cfg.retryDelaySeconds : Int) * 1000 ≤ b.time) st.events →
      (∀ e, st.events.getLast? = some e → e.ok = true →
        e.time ≤ st.limiter.lastRequestTime) →
      List.Chain'
        (fun a b => a.ok = true →
          a.time + (cfg.retryDelaySeconds : Int) * 1000 ≤ b.time)
        (run cfg fuel st).events := by
  induction fuel with
  | zero => intro st hc hl; exact hc
  | succ fuel ih =>
    intro st hc hl
    have hfe : (fireDue st).events = st.events := fireDueAux_events _ st
    have hfl : (fireDue st).limiter = st.limiter := fireDueAux_limiter _ st
    unfold run
    rcases h : runStep cfg (fireDue st) with _ | st2
    · dsimp only
      rw [hfe]
      exact hc
    · dsimp only
      unfold runStep at h
      rcases hq : (fireDue st).queue with _ | ⟨u, rest⟩ <;> rw [hq] at h
      · rcases hx : extractEarliest (fireDue st).timers with _ | ⟨tm, tl⟩ <;>
          rw [hx] at h
        · exact absurd h (by simp)
        · cases h
          apply ih
          · dsimp only
            rw [hfe]
            exact hc
          · dsimp only
            rw [hfe, hfl]
            exact hl
      · dsimp only at h
        cases h
        have hp := processHead_spaced cfg (fireDue st) u rest
          (by rw [hfe]; exact hc) (by rw [hfe, hfl]; exact hl)
        exact ih _ hp.1 hp.2

/-- C4 amended: the minimum-spacing guarantee holds only from a
*successful* dispatch: in every run of the limiter, for any two
consecutive dispatch events whose earlier member succeeded, the later one
begins at least `retryDelaySeconds` seconds after the earlier one began.
After a failed dispatch (which never stamps `lastRequestTime`), the next
dispatch may begin immediately. -/
theorem rateLimiter_spacing_after_success (cfg : RateLimitConfig)
    (fuel : Nat) (st : SysState) (hev : st.events = []) :
    List.Chain'
      (fun a b => a.ok = true →
        a.time + (cfg.retryDelaySeconds : Int) * 1000 ≤ b.time)
      (run cfg fuel st).events := by
  apply run_spaced cfg fuel st
  · rw [hev]
    exact List.chain'_nil
  · intro e he
    rw [hev] at he
    simp at he

/-- Witness for `rateLimiter_spacing_after_success`: the counterexample
run satisfies the success-relative spacing (its one successful dispatch
is the final one). -/
theorem rateLimiter_spacing_after_success_witness :
    List.Chain'
      (fun a b => a.ok = true → a.time + ((3 : Nat) : Int) * 1000 ≤ b.time)
      ((run ⟨2, 3, 3⟩ 6
        ⟨100000,
         [⟨1, 0, fun _ => ⟨0, .error ⟨some 500, some "boom"⟩⟩⟩,
          ⟨2, 0, fun _ => ⟨0, .ok 0⟩⟩],
         [], ⟨0, 0, 100000⟩, [], []⟩).events) :=
  rateLimiter_spacing_after_success ⟨2, 3, 3⟩ 6 _ rfl

/-! ### C3 — behaviour of the drain loop while a retry is pending -/

/-- C3 counterexample: unit 1 hits a 429 at 100000 ms and its retry is
scheduled for 103000 ms; the claim says the drain loop exits and nothing
else is dispatched in the interim, but the `while` loop continues and
dispatches unit 2 at 100000 ms, inside the backoff interim.  (Unit 1 is
then reinserted at the queue front and re-dispatched at 103000 ms.) -/
theorem rateLimiter_drain_continues_counterexample :
    ((run ⟨2, 3, 3⟩ 12
        ⟨100000,
         [⟨1, 0, fun _ => ⟨0, .error ⟨some 429, none⟩⟩⟩,
          ⟨2, 0, fun _ => ⟨0, .ok 0⟩⟩],
         [], ⟨0, 0, 100000⟩, [], []⟩).events.map
          (fun e => (e.unitId, e.time)) =
      [(1, 100000), (2, 100000), (1, 103000), (1, 109000), (1, 121000)]) ∧
    ((run ⟨2, 3, 3⟩ 12
        ⟨100000,
         [⟨1, 0, fun _ => ⟨0, .error ⟨some 429, none⟩⟩⟩,
          ⟨2, 0, fun _ => ⟨0, .ok 0⟩⟩],
         [], ⟨0, 0, 100000⟩, [], []⟩).settled.map Prod.fst = [2, 1]) := by
  refine ⟨by decide, by decide⟩

/-- C3 amended: while a throttled unit's retry is pending, the drain
loop does **not** exit if other units remain queued: it continues and
dispatches them during the backoff interim; the loop goes idle only once
the queue is empty, and when the delay elapses the throttled unit is
reinserted at the front of the queue and draining is re-entered.  Below,
for any throttling-classified error `e`: unit 2 is dispatched at
100000 ms, strictly inside unit 1's backoff interim (100000–103000 ms),
after which unit 1 is re-dispatched at 103000 ms. -/
theorem rateLimiter_retry_interim_dispatch (e : ErrorInfo)
    (h429 : is429Error e = true) :
    ((run ⟨2, 3, 3⟩ 12
        ⟨100000,
         [⟨1, 0, fun _ => ⟨0, .error e⟩⟩, ⟨2, 0, fun _ => ⟨0, .ok 0⟩⟩],
         [], ⟨0, 0, 100000⟩, [], []⟩).events.map
          (fun ev => (ev.unitId, ev.time)) =
      [(1, 100000), (2, 100000), (1, 103000), (1, 109000), (1, 121000)]) ∧
    ((run ⟨2, 3, 3⟩ 12
        ⟨100000,
         [⟨1, 0, fun _ => ⟨0, .error e⟩⟩, ⟨2, 0, fun _ => ⟨0, .ok 0⟩⟩],
         [], ⟨0, 0, 100000⟩, [], []⟩).settled =
      [(2, .ok 0), (1, .error e)]) := by
  constructor <;>
    simp [run, runStep, processHead, fireDue, fireDueAux, extractEarliest,
      waitForRateLimit, updateRequestCount, h429]

/-- Witness for `rateLimiter_retry_interim_dispatch` at a concrete
429-status error. -/
theorem rateLimiter_retry_interim_dispatch_witness :
    ((run ⟨2, 3, 3⟩ 12
        ⟨100000,
         [⟨1, 0, fun _ => ⟨0, .error ⟨some 429, some "Too Many Requests"⟩⟩⟩,
          ⟨2, 0, fun _ => ⟨0, .ok 0⟩⟩],
         [], ⟨0, 0, 100000⟩, [], []⟩).events.map
          (fun ev => (ev.unitId, ev.time)) =
      [(1, 100000), (2, 100000), (1, 103000), (1, 109000), (1, 121000)]) ∧
    ((run ⟨2, 3, 3⟩ 12
        ⟨100000,
         [⟨1, 0, fun _ => ⟨0, .error ⟨some 429, some "Too Many Requests"⟩⟩⟩,
          ⟨2, 0, fun _ => ⟨0, .ok 0⟩⟩],
         [], ⟨0, 0, 100000⟩, [], []⟩).settled =
      [(2, .ok 0), (1, .error ⟨some 429, some "Too Many Requests"⟩)]) :=
  rateLimiter_retry_interim_dispatch ⟨some 429, some "Too Many Requests"⟩
    (by decide)

/-! ### C2 — the retry schedule of an always-throttled unit -/

/-- The error carried by a rejecting attempt (default shape for a
resolving one). -/
def errOf (s : AttemptSpec) : ErrorInfo :=
  match s.result with
  | .error e => e
  | .ok _ => ⟨none, none⟩

/-- The dispatch schedule of an always-throttled unit `i` starting at
attempt `r` at instant `t`, for `n` further retries: each next attempt
begins `duration + retryDelaySeconds * 2 ^ (attempt index) * 1000`
milliseconds later. -/
def expectedFrom (i : Nat) (behavior : Nat → AttemptSpec) (rd : Nat) :
    Nat → Nat → Int → List DispatchEvent
  | 0, r, t => [⟨i, t, r, 0, false⟩]
  | n + 1, r, t =>
    ⟨i, t, r, 0, false⟩ ::
      expectedFrom i behavior rd n (r + 1)
        (t + ((behavior r).duration : Int) + ((rd * 2 ^ r : Nat) : Int) * 1000)

/-- On a window whose counter is 0, with no prior successful request
(`lastRequestTime = 0`) and a call instant past the minimum spacing,
`waitForRateLimit` returns immediately, resetting the window start iff
the window has lapsed. -/
theorem waitForRateLimit_fresh (cfg : RateLimitConfig) (ws t : Int)
    (hR : 1 ≤ cfg.requestsPerMinute)
    (ht : (cfg.retryDelaySeconds : Int) * 1000 ≤ t) :
    waitForRateLimit cfg ⟨0, 0, ws⟩ t =
      ⟨⟨0, 0, if 60000 ≤ t - ws then t else ws⟩, t⟩ := by
  unfold waitForRateLimit
  dsimp only
  split_ifs <;> simp_all <;> omega

theorem extractEarliest_mem :
    ∀ (l : List PendingTimer) (tm : PendingTimer) (tl : List PendingTimer),
      extractEarliest l = some (tm, tl) → tm ∈ l := by
  intro l
  induction l with
  | nil => intro tm tl h; exact absurd h (by simp [extractEarliest])
  | cons t rest ih =>
    intro tm tl h
    unfold extractEarliest at h
    rcases hx : extractEarliest rest with _ | ⟨m, others⟩ <;> rw [hx] at h
    · cases h
      exact List.mem_cons_self _ _
    · dsimp only at h
      split at h
      · cases h
        exact List.mem_cons_of_mem _ (ih _ _ hx)
      · cases h
        exact List.mem_cons_self _ _

theorem fireDue_not_due (st : SysState)
    (h : ∀ tm ∈ st.timers, st.time < tm.fireTime) : fireDue st = st := by
  unfold fireDue
  cases hn : st.timers.length with
  | zero => rfl
  | succ n =>
    unfold fireDueAux
    rcases hx : extractEarliest st.timers with _ | ⟨tm, tl⟩
    · rfl
    · dsimp only
      rw [if_neg (not_le.mpr (h tm (extractEarliest_mem _ _ _ hx)))]

theorem run_throttle_step (cfg : RateLimitConfig) (i r : Nat)
    (behavior : Nat → AttemptSpec) (t ws : Int) (ev : List DispatchEvent)
    (sd : List (Nat × Except ErrorInfo Nat)) (e : ErrorInfo) (fuel : Nat)
    (hR : 1 ≤ cfg.requestsPerMinute) (hrd : 1 ≤ cfg.retryDelaySeconds)
    (ht : (cfg.retryDelaySeconds : Int) * 1000 ≤ t)
    (he : (behavior r).result = .error e) (h429 : is429Error e = true)
    (hr : r < cfg.maxRetries) :
    run cfg (fuel + 2) ⟨t, [⟨i, r, behavior⟩], [], ⟨0, 0, ws⟩, ev, sd⟩ =
    run cfg fuel
      ⟨t + ((behavior r).duration : Int) +
         ((cfg.retryDelaySeconds * 2 ^ r : Nat) : Int) * 1000,
       [⟨i, r + 1, behavior⟩], [],
       ⟨0, 0, if 60000 ≤ t - ws then t else ws⟩,
       ev ++ [⟨i, t, r, 0, false⟩], sd⟩ := by
  have hdelay : (1 : Int) ≤ ((cfg.retryDelaySeconds * 2 ^ r : Nat) : Int) := by
    have h1 : 1 ≤ cfg.retryDelaySeconds * 2 ^ r :=
      Nat.one_le_iff_ne_zero.mpr (by positivity)
    exact_mod_cast h1
  conv_lhs => rw [show fuel + 2 = (fuel + 1) + 1 from rfl]
  conv_lhs => unfold run
  rw [fireDue_no_timers _ rfl]
  simp only [runStep]
  simp only [processHead]
  rw [waitForRateLimit_fresh cfg ws t hR ht]
  dsimp only
  rw [he]
  dsimp only
  rw [if_pos ⟨h429, hr⟩]
  conv_lhs => unfold run
  rw [fireDue_not_due _ (by
    intro tm htm
    simp only [List.nil_append, List.mem_singleton] at htm
    subst htm
    dsimp only
    simp only [Nat.add_sub_cancel]
    omega)]
  simp only [runStep, extractEarliest]
  rw [Nat.add_sub_cancel,
    max_eq_right (by omega : t + ((behavior r).duration : Int) ≤
      t + ((behavior r).duration : Int) +
        ((cfg.retryDelaySeconds * 2 ^ r : Nat) : Int) * 1000)]

theorem run_throttle_last (cfg : RateLimitConfig) (i r : Nat)
    (behavior : Nat → AttemptSpec) (t ws : Int) (ev : List DispatchEvent)
    (sd : List (Nat × Except ErrorInfo Nat)) (e : ErrorInfo) (fuel : Nat)
    (hR : 1 ≤ cfg.requestsPerMinute)
    (ht : (cfg.retryDelaySeconds : Int) * 1000 ≤ t)
    (he : (behavior r).result = .error e)
    (hr : ¬ r < cfg.maxRetries) :
    run cfg (fuel + 1) ⟨t, [⟨i, r, behavior⟩], [], ⟨0, 0, ws⟩, ev, sd⟩ =
    ⟨t + ((behavior r).duration : Int), [], [],
     ⟨0, 0, if 60000 ≤ t - ws then t else ws⟩,
     ev ++ [⟨i, t, r, 0, false⟩], sd ++ [(i, .error e)]⟩ := by
  unfold run
  rw [fireDue_no_timers _ rfl]
  simp only [runStep]
  simp only [processHead]
  rw [waitForRateLimit_fresh cfg ws t hR ht]
  dsimp only
  rw [he]
  dsimp only
  rw [if_neg (fun h => hr h.2)]
  exact run_idle cfg fuel _ rfl rfl

theorem run_throttle_all (cfg : RateLimitConfig) (i : Nat)
    (behavior : Nat → AttemptSpec)
    (hR : 1 ≤ cfg.requestsPerMinute) (hrd : 1 ≤ cfg.retryDelaySeconds)
    (hb : ∀ k, ∃ e, (behavior k).result = .error e ∧ is429Error e = true) :
    ∀ (n r : Nat) (t ws : Int) (ev : List DispatchEvent)
      (sd : List (Nat × Except ErrorInfo Nat)),
      r + n = cfg.maxRetries →
      (cfg.retryDelaySeconds : Int) * 1000 ≤ t →
      (run cfg (2 * n + 2)
        ⟨t, [⟨i, r, behavior⟩], [], ⟨0, 0, ws⟩, ev, sd⟩).events =
        ev ++ expectedFrom i behavior cfg.retryDelaySeconds n r t ∧
      (run cfg (2 * n + 2)
        ⟨t, [⟨i, r, behavior⟩], [], ⟨0, 0, ws⟩, ev, sd⟩).settled =
        sd ++ [(i, .error (errOf (behavior cfg.maxRetries)))] := by
  intro n
  induction n with
  | zero =>
    intro r t ws ev sd hrn ht
    obtain ⟨e, he, h429⟩ := hb r
    have hr : ¬ r < cfg.maxRetries := by omega
    rw [show 2 * 0 + 2 = 1 + 1 from rfl,
      run_throttle_last cfg i r behavior t ws ev sd e 1 hR ht he hr]
    refine ⟨rfl, ?_⟩
    have hrm : r = cfg.maxRetries := by omega
    subst hrm
    unfold errOf
    rw [he]
  | succ n ih =>
    intro r t ws ev sd hrn ht
    obtain ⟨e, he, h429⟩ := hb r
    have hr : r < cfg.maxRetries := by omega
    rw [show 2 * (n + 1) + 2 = (2 * n + 2) + 2 by ring,
      run_throttle_step cfg i r behavior t ws ev sd e (2 * n + 2)
        hR hrd ht he h429 hr]
    have hd0 : (0 : Int) ≤ ((behavior r).duration : Int) := by
      exact_mod_cast Nat.zero_le _
    have hdel0 : (0 : Int) ≤ ((cfg.retryDelaySeconds * 2 ^ r : Nat) : Int) := by
      exact_mod_cast Nat.zero_le _
    obtain ⟨hev, hsd⟩ := ih (r + 1)
      (t + ((behavior r).duration : Int) +
        ((cfg.retryDelaySeconds * 2 ^ r : Nat) : Int) * 1000)
      (if 60000 ≤ t - ws then t else ws)
      (ev ++ [⟨i, t, r, 0, false⟩]) sd (by omega) (by omega)
    rw [hev, hsd]
    constructor
    · rw [List.append_assoc]
      rfl
    · rfl

theorem expectedFrom_length (i : Nat) (behavior : Nat → AttemptSpec)
    (rd : Nat) :
    ∀ (n r : Nat) (t : Int),
      (expectedFrom i behavior rd n r t).length = n + 1 := by
  intro n
  induction n with
  | zero => intro r t; rfl
  | succ n ih =>
    intro r t
    simp only [expectedFrom, List.length_cons, ih]

theorem expectedFrom_head (i : Nat) (behavior : Nat → AttemptSpec) (rd : Nat)
    (n r : Nat) (t : Int) :
    (expectedFrom i behavior rd n r t).get? 0 = some ⟨i, t, r, 0, false⟩ := by
  cases n <;> rfl

theorem expectedFrom_adjacent (i : Nat) (behavior : Nat → AttemptSpec)
    (rd : Nat) :
    ∀ (n r : Nat) (t : Int) (k : Nat) (a b : DispatchEvent), k < n →
      (expectedFrom i behavior rd n r t).get? k = some a →
      (expectedFrom i behavior rd n r t).get? (k + 1) = some b →
      b.time = a.time + ((behavior (r + k)).duration : Int) +
        ((rd * 2 ^ (r + k) : Nat) : Int) * 1000 := by
  intro n
  induction n with
  | zero =>
    intro r t k a b hk ha hb
    exact absurd hk (Nat.not_lt_zero k)
  | succ n ih =>
    intro r t k a b hk ha hb
    cases k with
    | zero =>
      simp only [expectedFrom, List.get?_cons_zero, Option.some.injEq] at ha
      rw [show (0 : Nat) + 1 = 1 from rfl] at hb
      simp only [expectedFrom, List.get?_cons_succ] at hb
      rw [expectedFrom_head] at hb
      cases ha
      cases hb
      simp
    | succ k =>
      simp only [expectedFrom, List.get?_cons_succ] at ha hb
      have h2 := ih (r + 1) _ k a b (by omega) ha hb
      have hrk : r + 1 + k = r + (k + 1) := by omega
      rw [hrk] at h2
      exact h2

/-- C2: a unit whose action rejects with a throttling-classified error on
every attempt is executed exactly `maxRetries + 1` times (the initial
attempt plus exactly `maxRetries` retries); the gap between the start of
attempt `k` and the start of attempt `k + 1` is that attempt's duration
plus `retryDelaySeconds * 2 ^ k` seconds of backoff (i.e. retry attempt
`k` is delayed by `retryDelaySeconds * 2 ^ (k - 1)` seconds after the
previous attempt completes); the unit's promise then rejects with the
error produced by the last attempt. -/
theorem rateLimiter_retry_schedule (cfg : RateLimitConfig) (i : Nat)
    (behavior : Nat → AttemptSpec) (t ws : Int)
    (hR : 1 ≤ cfg.requestsPerMinute) (hrd : 1 ≤ cfg.retryDelaySeconds)
    (hb : ∀ k, ∃ e, (behavior k).result = .error e ∧ is429Error e = true)
    (ht : (cfg.retryDelaySeconds : Int) * 1000 ≤ t) :
    (run cfg (2 * cfg.maxRetries + 2)
      ⟨t, [⟨i, 0, behavior⟩], [], ⟨0, 0, ws⟩, [], []⟩).events.length =
      cfg.maxRetries + 1 ∧
    (run cfg (2 * cfg.maxRetries + 2)
      ⟨t, [⟨i, 0, behavior⟩], [], ⟨0, 0, ws⟩, [], []⟩).settled =
      [(i, .error (errOf (behavior cfg.maxRetries)))] ∧
    (∀ k, k < cfg.maxRetries →
      ∀ a b,
        (run cfg (2 * cfg.maxRetries + 2)
          ⟨t, [⟨i, 0, behavior⟩], [], ⟨0, 0, ws⟩, [], []⟩).events.get? k =
            some a →
        (run cfg (2 * cfg.maxRetries + 2)
          ⟨t, [⟨i, 0, behavior⟩], [], ⟨0, 0, ws⟩, [], []⟩).events.get?
            (k + 1) = some b →
        b.time = a.time + ((behavior k).duration : Int) +
          ((cfg.retryDelaySeconds * 2 ^ k : Nat) : Int) * 1000) := by
  obtain ⟨hev, hsd⟩ := run_throttle_all cfg i behavior hR hrd hb
    cfg.maxRetries 0 t ws [] [] (by omega) ht
  rw [hev, hsd]
  refine ⟨?_, rfl, ?_⟩
  · rw [List.nil_append, expectedFrom_length]
  · intro k hk a b ha hb'
    rw [List.nil_append] at ha hb'
    have := expectedFrom_adjacent i behavior cfg.retryDelaySeconds
      cfg.maxRetries 0 t k a b hk ha hb'
    simpa using this

/-- Witness for `rateLimiter_retry_schedule`: with `maxRetries = 2` and
`retryDelaySeconds = 1`, an always-throttled unit is attempted 3 times
and rejects with its (last) error. -/
theorem rateLimiter_retry_schedule_witness :
    ((run ⟨1, 1, 2⟩ 6
      ⟨1000, [⟨5, 0, fun _ => ⟨0, .error ⟨some 429, none⟩⟩⟩], [],
       ⟨0, 0, 0⟩, [], []⟩).events.length = 3) ∧
    ((run ⟨1, 1, 2⟩ 6
      ⟨1000, [⟨5, 0, fun _ => ⟨0, .error ⟨some 429, none⟩⟩⟩], [],
       ⟨0, 0, 0⟩, [], []⟩).settled =
      [(5, .error ⟨some 429, none⟩)]) := by
  have h := rateLimiter_retry_schedule ⟨1, 1, 2⟩ 5
    (fun _ => ⟨0, .error ⟨some 429, none⟩⟩) 1000 0 (by decide) (by decide)
    (fun _ => ⟨⟨some 429, none⟩, rfl, by decide⟩) (by decide)
  exact ⟨h.1, h.2.1⟩

/-! ### C7 — every submitted unit settles exactly once -/

/-- All units currently owned by the system: those waiting in the queue
plus those parked inside pending retry timers. -/
def liveUnits (st : SysState) : Multiset QUnit :=
  (st.queue : Multiset QUnit) +
    ((st.timers.map PendingTimer.unit : List QUnit) : Multiset QUnit)

/-- Number of attempts the unit may still consume (the next attempt plus
its remaining retries). -/
def unitWeight (cfg : RateLimitConfig) (u : QUnit) : Nat :=
  cfg.maxRetries + 1 - u.retryCount

/-- Total remaining attempts across all live units. -/
def sysMeasure (cfg : RateLimitConfig) (st : SysState) : Nat :=
  ((liveUnits st).map (unitWeight cfg)).sum

/-- Multiset of ids whose promises have settled. -/
def settledIdsM (st : SysState) : Multiset Nat :=
  ((st.settled.map Prod.fst : List Nat) : Multiset Nat)

/-- Multiset of ids of live units. -/
def liveIdsM (st : SysState) : Multiset Nat :=
  (liveUnits st).map QUnit.id

theorem extractEarliest_eq_none (l : List PendingTimer) :
    extractEarliest l = none ↔ l = [] := by
  cases l with
  | nil => simp [extractEarliest]
  | cons t rest =>
    simp only [extractEarliest]
    rcases h : extractEarliest rest with _ | ⟨m, o⟩
    · simp
    · dsimp only
      split <;> simp

theorem extractEarliest_perm :
    ∀ (l : List PendingTimer) (tm : PendingTimer) (tl : List PendingTimer),
      extractEarliest l = some (tm, tl) → List.Perm (tm :: tl) l := by
  intro l
  induction l with
  | nil => intro tm tl h; exact absurd h (by simp [extractEarliest])
  | cons t rest ih =>
    intro tm tl h
    unfold extractEarliest at h
    rcases hx : extractEarliest rest with _ | ⟨m, o⟩ <;> rw [hx] at h
    · cases h
      have hnil : rest = [] := (extractEarliest_eq_none rest).mp hx
      subst hnil
      exact List.Perm.refl _
    · dsimp only at h
      split at h
      · cases h
        exact (List.Perm.swap t tm o).trans ((ih tm o hx).cons t)
      · cases h
        exact List.Perm.refl _

theorem multiset_add_cons {α : Type _} (a : α) (s t : Multiset α) :
    s + (a ::ₘ t) = a ::ₘ (s + t) := by
  rw [add_comm, Multiset.cons_add, add_comm t s]

theorem fireDueAux_queue_suffix (n : Nat) :
    ∀ st : SysState, ∃ l, (fireDueAux st n).queue = l ++ st.queue := by
  induction n with
  | zero => intro st; exact ⟨[], rfl⟩
  | succ n ih =>
    intro st
    unfold fireDueAux
    rcases hx : extractEarliest st.timers with _ | ⟨tm, tl⟩
    · exact ⟨[], rfl⟩
    · dsimp only
      split
      · obtain ⟨l, hl⟩ :=
          ih { st with queue := tm.unit :: st.queue, timers := tl }
        exact ⟨l ++ [tm.unit], by rw [hl]; simp⟩
      · exact ⟨[], rfl⟩

theorem fireDueAux_liveUnits (n : Nat) :
    ∀ st : SysState, liveUnits (fireDueAux st n) = liveUnits st := by
  induction n with
  | zero => intro st; rfl
  | succ n ih =>
    intro st
    unfold fireDueAux
    rcases hx : extractEarliest st.timers with _ | ⟨tm, tl⟩
    · rfl
    · dsimp only
      split
      · rw [ih]
        unfold liveUnits
        dsimp only
        have hp : List.Perm ((tm :: tl).map PendingTimer.unit)
            (st.timers.map PendingTimer.unit) :=
          (extractEarliest_perm _ _ _ hx).map _
        have hc : (tm.unit ::ₘ ((tl.map PendingTimer.unit : List QUnit) :
            Multiset QUnit)) =
            ((st.timers.map PendingTimer.unit : List QUnit) : Multiset QUnit) := by
          rw [Multiset.cons_coe]
          exact Multiset.coe_eq_coe.mpr hp
        rw [← hc, ← Multiset.cons_coe, Multiset.cons_add, multiset_add_cons]
      · rfl

theorem processHead_book (cfg : RateLimitConfig) (st : SysState) (u : QUnit)
    (rest : List QUnit) (hrcu : u.retryCount ≤ cfg.maxRetries) :
    ∃ extra : Multiset QUnit,
      liveUnits (processHead cfg st u rest) =
        ((rest : Multiset QUnit) +
          ((st.timers.map PendingTimer.unit : List QUnit) : Multiset QUnit)) +
          extra ∧
      extra.map QUnit.id + settledIdsM (processHead cfg st u rest) =
        {u.id} + settledIdsM st ∧
      (extra.map (unitWeight cfg)).sum < unitWeight cfg u ∧
      (∀ v ∈ extra, v.retryCount ≤ cfg.maxRetries) := by
  have hwu : 1 ≤ unitWeight cfg u := by
    unfold unitWeight
    omega
  simp only [processHead]
  rcases hres : (u.behavior u.retryCount).result with e | v
  · dsimp only
    split
    · rename_i hcond
      refine ⟨{{ u with retryCount := u.retryCount + 1 }}, ?_, ?_, ?_, ?_⟩
      · unfold liveUnits
        dsimp only
        rw [List.map_append, ← Multiset.coe_add, ← add_assoc]
        rfl
      · have h1 : settledIdsM
            { time := (waitForRateLimit cfg st.limiter st.time).time +
                ((u.behavior u.retryCount).duration : Int),
              queue := rest,
              timers := st.timers ++
                [⟨(waitForRateLimit cfg st.limiter st.time).time +
                    ((u.behavior u.retryCount).duration : Int) +
                    ((cfg.retryDelaySeconds *
                      2 ^ (u.retryCount + 1 - 1) : Nat) : Int) * 1000,
                  { u with retryCount := u.retryCount + 1 }⟩],
              limiter := (waitForRateLimit cfg st.limiter st.time).state,
              events := st.events ++
                [⟨u.id, (waitForRateLimit cfg st.limiter st.time).time,
                  u.retryCount,
                  (waitForRateLimit cfg st.limiter st.time).state.requestCount,
                  false⟩],
              settled := st.settled } = settledIdsM st := rfl
        rw [h1]
        rfl
      · have h2 : (({{ u with retryCount := u.retryCount + 1 }} :
            Multiset QUnit).map (unitWeight cfg)).sum =
            unitWeight cfg { u with retryCount := u.retryCount + 1 } := by
          simp
        rw [h2]
        unfold unitWeight at hwu ⊢
        obtain ⟨h429, hrlt⟩ := hcond
        dsimp only
        omega
      · intro v hv
        rw [Multiset.mem_singleton] at hv
        subst hv
        obtain ⟨h429, hrlt⟩ := hcond
        dsimp only
        omega
    · refine ⟨0, ?_, ?_, ?_, ?_⟩
      · unfold liveUnits
        dsimp only
        rw [add_zero]
      · have h1 : ∀ l : List (Nat × Except ErrorInfo Nat), ∀ x,
            ((((l ++ [x]).map Prod.fst : List Nat)) : Multiset Nat) =
            (((l.map Prod.fst : List Nat)) : Multiset Nat) + {x.1} := by
          intro l x
          rw [List.map_append, ← Multiset.coe_add]
          rfl
        unfold settledIdsM
        dsimp only
        rw [h1]
        rw [Multiset.map_zero, zero_add, add_comm]
      · simpa using hwu
      · intro v hv
        simp at hv
  · dsimp only
    refine ⟨0, ?_, ?_, ?_, ?_⟩
    · unfold liveUnits
      dsimp only
      rw [add_zero]
    · have h1 : ∀ l : List (Nat × Except ErrorInfo Nat), ∀ x,
          ((((l ++ [x]).map Prod.fst : List Nat)) : Multiset Nat) =
          (((l.map Prod.fst : List Nat)) : Multiset Nat) + {x.1} := by
        intro l x
        rw [List.map_append, ← Multiset.coe_add]
        rfl
      unfold settledIdsM
      dsimp only
      rw [h1]
      rw [Multiset.map_zero, zero_add, add_comm]
    · simpa using hwu
    · intro v hv
      simp at hv

/-- 1 when the queue is empty (the driver loop is about to go idle),
0 otherwise; together with twice the remaining-attempt count it bounds
the number of loop checks left. -/
def idleFlag (st : SysState) : Nat :=
  match st.queue with
  | [] => 1
  | _ => 0

theorem idleFlag_le_one (st : SysState) : idleFlag st ≤ 1 := by
  unfold idleFlag
  split <;> omega

theorem run_drains_aux (cfg : RateLimitConfig) :
    ∀ (fuel : Nat) (st : SysState),
      2 * sysMeasure cfg st + idleFlag st ≤ fuel →
      (∀ u ∈ liveUnits st, u.retryCount ≤ cfg.maxRetries) →
      (run cfg fuel st).queue = [] ∧ (run cfg fuel st).timers = [] ∧
      settledIdsM (run cfg fuel st) = settledIdsM st + liveIdsM st := by
  intro fuel
  induction fuel with
  | zero =>
    intro st hf hrc
    exfalso
    rcases hq : st.queue with _ | ⟨u, rest⟩
    · have h1 : idleFlag st = 1 := by
        unfold idleFlag
        rw [hq]
      omega
    · have hu : u ∈ liveUnits st := by
        unfold liveUnits
        rw [hq]
        exact Multiset.mem_add.mpr (Or.inl (List.mem_cons_self u rest))
      obtain ⟨s, hs⟩ := Multiset.exists_cons_of_mem hu
      have hM : sysMeasure cfg st = unitWeight cfg u +
          (s.map (unitWeight cfg)).sum := by
        unfold sysMeasure
        rw [hs, Multiset.map_cons, Multiset.sum_cons]
      have hw : 1 ≤ unitWeight cfg u := by
        have := hrc u hu
        unfold unitWeight
        omega
      omega
  | succ fuel ih =>
    intro st hf hrc
    have hlu1 : liveUnits (fireDue st) = liveUnits st := fireDueAux_liveUnits _ st
    have hsd1 : (fireDue st).settled = st.settled := fireDueAux_settled _ st
    have hM1 : sysMeasure cfg (fireDue st) = sysMeasure cfg st := by
      unfold sysMeasure
      rw [hlu1]
    have hrc1 : ∀ u ∈ liveUnits (fireDue st), u.retryCount ≤ cfg.maxRetries := by
      rw [hlu1]
      exact hrc
    have hids1 : settledIdsM (fireDue st) = settledIdsM st := by
      unfold settledIdsM
      rw [hsd1]
    have hlids1 : liveIdsM (fireDue st) = liveIdsM st := by
      unfold liveIdsM
      rw [hlu1]
    have hite : idleFlag (fireDue st) ≤ idleFlag st := by
      rcases hq2 : (fireDue st).queue with _ | ⟨u, q⟩
      · obtain ⟨l, hl⟩ := fireDueAux_queue_suffix st.timers.length st
        rw [show fireDueAux st st.timers.length = fireDue st from rfl] at hl
        rw [hq2] at hl
        have hnil : st.queue = [] := (List.append_eq_nil.mp hl.symm).2
        have ha : idleFlag (fireDue st) = 1 := by
          unfold idleFlag
          rw [hq2]
        have hb : idleFlag st = 1 := by
          unfold idleFlag
          rw [hnil]
        omega
      · have ha : idleFlag (fireDue st) = 0 := by
          unfold idleFlag
          rw [hq2]
        omega
    have hf1 : 2 * sysMeasure cfg (fireDue st) + idleFlag (fireDue st) ≤
        fuel + 1 := by
      rw [hM1]
      omega
    unfold run
    rcases hstep : runStep cfg (fireDue st) with _ | st2
    · dsimp only
      unfold runStep at hstep
      rcases hq2 : (fireDue st).queue with _ | ⟨u, rest⟩ <;> rw [hq2] at hstep
      · rcases hx : extractEarliest (fireDue st).timers with _ | p <;>
          rw [hx] at hstep
        · have htm : (fireDue st).timers = [] :=
            (extractEarliest_eq_none _).mp hx
          refine ⟨rfl, htm, ?_⟩
          have hz : liveUnits (fireDue st) = 0 := by
            unfold liveUnits
            rw [hq2, htm]
            rfl
          have hz2 : liveIdsM st = 0 := by
            rw [← hlids1]
            unfold liveIdsM
            rw [hz]
            rfl
          rw [hids1, hz2, add_zero]
        · exact absurd hstep (by simp)
      · exact absurd hstep (by simp)
    · dsimp only
      unfold runStep at hstep
      rcases hq2 : (fireDue st).queue with _ | ⟨u, rest⟩ <;> rw [hq2] at hstep
      · -- idle loop: the earliest pending timer fires and re-triggers draining
        rcases hx : extractEarliest (fireDue st).timers with _ | ⟨tm, tl⟩ <;>
          rw [hx] at hstep
        · exact absurd hstep (by simp)
        · dsimp only at hstep
          cases hstep
          have hperm : List.Perm ((tm :: tl).map PendingTimer.unit)
              ((fireDue st).timers.map PendingTimer.unit) :=
            (extractEarliest_perm _ _ _ hx).map _
          have hlu2 : liveUnits { fireDue st with
              time := max (fireDue st).time tm.fireTime,
              queue := [tm.unit], timers := tl } = liveUnits (fireDue st) := by
            unfold liveUnits
            dsimp only
            rw [hq2]
            have hc : (tm.unit ::ₘ ((tl.map PendingTimer.unit : List QUnit) :
                Multiset QUnit)) =
                (((fireDue st).timers.map PendingTimer.unit : List QUnit) :
                  Multiset QUnit) := by
              rw [Multiset.cons_coe]
              exact Multiset.coe_eq_coe.mpr hperm
            rw [← hc, ← Multiset.cons_coe, Multiset.cons_add]
            simp [multiset_add_cons]
          obtain ⟨hd1, hd2, hd3⟩ := ih { fireDue st with
              time := max (fireDue st).time tm.fireTime,
              queue := [tm.unit], timers := tl }
            (by
              have hm2 : sysMeasure cfg { fireDue st with
                  time := max (fireDue st).time tm.fireTime,
                  queue := [tm.unit], timers := tl } =
                  sysMeasure cfg (fireDue st) := by
                unfold sysMeasure
                rw [hlu2]
              have hia : idleFlag (fireDue st) = 1 := by
                unfold idleFlag
                rw [hq2]
              have hib : idleFlag { fireDue st with
                  time := max (fireDue st).time tm.fireTime,
                  queue := [tm.unit], timers := tl } = 0 := rfl
              omega)
            (by
              rw [hlu2]
              exact hrc1)
          refine ⟨hd1, hd2, ?_⟩
          rw [hd3]
          have hidseq : settledIdsM { fireDue st with
              time := max (fireDue st).time tm.fireTime,
              queue := [tm.unit], timers := tl } = settledIdsM (fireDue st) := rfl
          have hlidseq : liveIdsM { fireDue st with
              time := max (fireDue st).time tm.fireTime,
              queue := [tm.unit], timers := tl } = liveIdsM (fireDue st) := by
            unfold liveIdsM
            rw [hlu2]
          rw [hidseq, hlidseq, hids1, hlids1]
      · -- a unit is shifted off the queue and processed
        dsimp only at hstep
        cases hstep
        have hluc : liveUnits (fireDue st) =
            u ::ₘ ((rest : Multiset QUnit) +
              (((fireDue st).timers.map PendingTimer.unit : List QUnit) :
                Multiset QUnit)) := by
          unfold liveUnits
          rw [hq2, ← Multiset.cons_coe, Multiset.cons_add]
        have humem : u ∈ liveUnits (fireDue st) := by
          rw [hluc]
          exact Multiset.mem_cons_self _ _
        have hrcu : u.retryCount ≤ cfg.maxRetries := hrc1 u humem
        have hwu : 1 ≤ unitWeight cfg u := by
          unfold unitWeight
          omega
        obtain ⟨extra, hex1, hex2, hex3, hex4⟩ :=
          processHead_book cfg (fireDue st) u rest hrcu
        have hMsplit : sysMeasure cfg (fireDue st) = unitWeight cfg u +
            ((((rest : Multiset QUnit) +
              (((fireDue st).timers.map PendingTimer.unit : List QUnit) :
                Multiset QUnit))).map (unitWeight cfg)).sum := by
          unfold sysMeasure
          rw [hluc, Multiset.map_cons, Multiset.sum_cons]
        have hM2 : sysMeasure cfg (processHead cfg (fireDue st) u rest) =
            ((((rest : Multiset QUnit) +
              (((fireDue st).timers.map PendingTimer.unit : List QUnit) :
                Multiset QUnit))).map (unitWeight cfg)).sum +
            (extra.map (unitWeight cfg)).sum := by
          unfold sysMeasure
          rw [hex1, Multiset.map_add, Multiset.sum_add]
        have hia : idleFlag (fireDue st) = 0 := by
          unfold idleFlag
          rw [hq2]
        obtain ⟨hd1, hd2, hd3⟩ := ih (processHead cfg (fireDue st) u rest)
          (by
            have hle : idleFlag (processHead cfg (fireDue st) u rest) ≤ 1 :=
              idleFlag_le_one _
            omega)
          (by
            intro v hv
            rw [hex1] at hv
            rcases Multiset.mem_add.mp hv with h1 | h2
            · have hv2 : v ∈ liveUnits (fireDue st) := by
                rw [hluc]
                exact Multiset.mem_cons_of_mem h1
              exact hrc1 v hv2
            · exact hex4 v h2)
        refine ⟨hd1, hd2, ?_⟩
        rw [hd3]
        have hgoal : settledIdsM st + liveIdsM st =
            settledIdsM (fireDue st) + liveIdsM (fireDue st) := by
          rw [hids1, hlids1]
        rw [hgoal]
        unfold liveIdsM
        rw [hluc, hex1, Multiset.map_cons, Multiset.map_add]
        calc settledIdsM (processHead cfg (fireDue st) u rest) +
              (((rest : Multiset QUnit) +
                (((fireDue st).timers.map PendingTimer.unit : List QUnit) :
                  Multiset QUnit)).map QUnit.id + extra.map QUnit.id) =
            extra.map QUnit.id +
              settledIdsM (processHead cfg (fireDue st) u rest) +
              ((rest : Multiset QUnit) +
                (((fireDue st).timers.map PendingTimer.unit : List QUnit) :
                  Multiset QUnit)).map QUnit.id := by
              rw [add_comm (extra.map QUnit.id)
                (settledIdsM (processHead cfg (fireDue st) u rest))]
              rw [add_assoc]
              rw [add_comm (((rest : Multiset QUnit) +
                (((fireDue st).timers.map PendingTimer.unit : List QUnit) :
                  Multiset QUnit)).map QUnit.id) (extra.map QUnit.id)]
          _ = {u.id} + settledIdsM (fireDue st) +
              ((rest : Multiset QUnit) +
                (((fireDue st).timers.map PendingTimer.unit : List QUnit) :
                  Multiset QUnit)).map QUnit.id := by rw [hex2]
          _ = settledIdsM (fireDue st) +
              (u.id ::ₘ ((rest : Multiset QUnit) +
                (((fireDue st).timers.map PendingTimer.unit : List QUnit) :
                  Multiset QUnit)).map QUnit.id) := by
              rw [add_comm ({u.id} : Multiset Nat) (settledIdsM (fireDue st)),
                add_assoc, Multiset.singleton_add]

/-- C7: submission never throws — `makeRequest` is the total operation
of appending a unit to the queue and triggering the driver — and no
submitted unit is dropped: with enough loop checks (at least twice the
total number of attempts the submitted units can consume, plus one), the
system drains completely and the ids of the settled promises are exactly
a permutation of the submitted ids, so every unit's promise settles
exactly once — resolved with the action's result on success (see the
success branch of `processHead`) or rejected with the terminal error. -/
theorem rateLimiter_all_units_settle (cfg : RateLimitConfig) (fuel : Nat)
    (st : SysState)
    (hfuel : 2 * sysMeasure cfg st + 1 ≤ fuel)
    (hrc : ∀ u ∈ st.queue, u.retryCount ≤ cfg.maxRetries)
    (hto : st.timers = []) (hsd : st.settled = []) :
    (run cfg fuel st).queue = [] ∧ (run cfg fuel st).timers = [] ∧
    ((run cfg fuel st).settled.map Prod.fst).Perm (st.queue.map QUnit.id) := by
  have hrc2 : ∀ u ∈ liveUnits st, u.retryCount ≤ cfg.maxRetries := by
    intro u hu
    unfold liveUnits at hu
    rw [hto] at hu
    simp only [List.map_nil, Multiset.coe_nil, add_zero, Multiset.mem_coe]
      at hu
    exact hrc u hu
  obtain ⟨h1, h2, h3⟩ := run_drains_aux cfg fuel st
    (by have := idleFlag_le_one st; omega) hrc2
  refine ⟨h1, h2, ?_⟩
  rw [← Multiset.coe_eq_coe]
  have h4 : settledIdsM (run cfg fuel st) =
      ((st.queue.map QUnit.id : List Nat) : Multiset Nat) := by
    rw [h3]
    unfold settledIdsM liveIdsM liveUnits
    rw [hsd, hto]
    simp
  exact h4

/-- Witness for `rateLimiter_all_units_settle`: an always-throttled unit
and a succeeding unit both settle, exactly once each. -/
theorem rateLimiter_all_units_settle_witness :
    (run ⟨2, 3, 3⟩ 17
      ⟨100000,
       [⟨1, 0, fun _ => ⟨0, .error ⟨some 429, none⟩⟩⟩,
        ⟨2, 0, fun _ => ⟨0, .ok 0⟩⟩],
       [], ⟨0, 0, 100000⟩, [], []⟩).queue = [] ∧
    (run ⟨2, 3, 3⟩ 17
      ⟨100000,
       [⟨1, 0, fun _ => ⟨0, .error ⟨some 429, none⟩⟩⟩,
        ⟨2, 0, fun _ => ⟨0, .ok 0⟩⟩],
       [], ⟨0, 0, 100000⟩, [], []⟩).timers = [] ∧
    ((run ⟨2, 3, 3⟩ 17
      ⟨100000,
       [⟨1, 0, fun _ => ⟨0, .error ⟨some 429, none⟩⟩⟩,
        ⟨2, 0, fun _ => ⟨0, .ok 0⟩⟩],
       [], ⟨0, 0, 100000⟩, [], []⟩).settled.map Prod.fst).Perm
      (([⟨1, 0, fun _ => ⟨0, .error ⟨some 429, none⟩⟩⟩,
        ⟨2, 0, fun _ => ⟨0, .ok 0⟩⟩] : List QUnit).map QUnit.id) :=
  rateLimiter_all_units_settle ⟨2, 3, 3⟩ 17
    ⟨100000,
     [⟨1, 0, fun _ => ⟨0, .error ⟨some 429, none⟩⟩⟩,
      ⟨2, 0, fun _ => ⟨0, .ok 0⟩⟩],
     [], ⟨0, 0, 100000⟩, [], []⟩
    (by decide) (by decide) rfl rfl

/-! ### C8 — the pipeline orchestrator halts at the first failing stage -/

/-- Status of one `GenerationStep` of the strategy/contract pipeline
(`'pending' | 'loading' | 'completed' | 'error'`). -/
inductive StageStatus where
  | pending
  | loading
  | completed
  | error
  deriving Repr, DecidableEq

/-- One pipeline step as the UI state holds it: its status and the
optional `content` payload. -/
structure GenerationStep where
  status : StageStatus
  content : Option String
  deriving Repr, DecidableEq

/-- JS `Array.prototype.map` with the element index, as used by the
`setSteps(prev => prev.map((step, index) => ...))` updates. -/
def mapWithIndex (f : Nat → GenerationStep → GenerationStep) :
    Nat → List GenerationStep → List GenerationStep
  | _, [] => []
  | j, s :: rest => f j s :: mapWithIndex f (j + 1) rest

/-- `prev.map((step, index) => index === i ? { ...step, status: 'loading' } : step)`. -/
def setLoading (steps : List GenerationStep) (i : Nat) : List GenerationStep :=
  mapWithIndex
    (fun j s => if j = i then { s with status := .loading } else s) 0 steps

/-- `prev.map((step, index) => index === i ? { ...step, status: 'completed', content } : step)`. -/
def setCompleted (steps : List GenerationStep) (i : Nat) (c : String) :
    List GenerationStep :=
  mapWithIndex
    (fun j s => if j = i then { status := .completed, content := some c }
      else s) 0 steps

/-- The catch handler of `generateRealStrategy`: mark every currently
loading step as `error`, attaching `Error: <message>` as its content. -/
def failLoadingSteps (steps : List GenerationStep) (msg : String) :
    List GenerationStep :=
  steps.map fun s =>
    if s.status = .loading
    then { s with status := .error, content := some ("Error: " ++ msg) }
    else s

/-- The stage loop of `generateRealStrategy` (same shape as
`generateSmartContract`): stage `i` is first marked loading, its work
runs (outcome supplied opaquely per stage), then it is marked completed
with the produced content and the next stage starts; on the first
rejection the catch handler runs and the remaining stages are never
touched.  The returned trace lists the step arrays after each
`setSteps` update. -/
def runStages : List GenerationStep → Nat → List (Except String String) →
    List (List GenerationStep)
  | _, _, [] => []
  | steps, i, (Except.ok c) :: rest =>
    let s1 := setLoading steps i
    let s2 := setCompleted s1 i c
    s1 :: s2 :: runStages s2 (i + 1) rest
  | steps, i, (Except.error m) :: _ =>
    let s1 := setLoading steps i
    [s1, failLoadingSteps s1 m]

/-- The initial step array: every stage pending with no content. -/
def initSteps (n : Nat) : List GenerationStep :=
  List.replicate n ⟨.pending, none⟩

/-- `generateRealStrategy`, reduced to its stage state machine: reset all
steps to pending, then run the stage loop from stage 0. -/
def generateRealStrategy (outcomes : List (Except String String)) (n : Nat) :
    List (List GenerationStep) :=
  runStages (initSteps n) 0 outcomes

theorem mapWithIndex_get (f : Nat → GenerationStep → GenerationStep) :
    ∀ (l : List GenerationStep) (j0 i : Nat),
      (mapWithIndex f j0 l).get? i = (l.get? i).map (f (j0 + i)) := by
  intro l
  induction l with
  | nil => intro j0 i; rfl
  | cons s rest ih =>
    intro j0 i
    cases i with
    | zero => rfl
    | succ i =>
      simp only [mapWithIndex, List.get?_cons_succ]
      rw [ih (j0 + 1) i]
      have h : j0 + 1 + i = j0 + (i + 1) := by omega
      rw [h]

theorem setLoading_get (steps : List GenerationStep) (i j : Nat) :
    (setLoading steps i).get? j = (steps.get? j).map
      (fun s => if j = i then { s with status := .loading } else s) := by
  unfold setLoading
  rw [mapWithIndex_get]
  rw [Nat.zero_add]

theorem setCompleted_get (steps : List GenerationStep) (i j : Nat)
    (c : String) :
    (setCompleted steps i c).get? j = (steps.get? j).map
      (fun s => if j = i then { status := .completed, content := some c }
        else s) := by
  unfold setCompleted
  rw [mapWithIndex_get]
  rw [Nat.zero_add]

theorem failLoadingSteps_get (steps : List GenerationStep) (msg : String)
    (j : Nat) :
    (failLoadingSteps steps msg).get? j = (steps.get? j).map
      (fun s => if s.status = .loading
        then { s with status := .error, content := some ("Error: " ++ msg) }
        else s) := by
  unfold failLoadingSteps
  rw [List.get?_map]

theorem mapWithIndex_length (f : Nat → GenerationStep → GenerationStep) :
    ∀ (l : List GenerationStep) (j0 : Nat),
      (mapWithIndex f j0 l).length = l.length := by
  intro l
  induction l with
  | nil => intro j0; rfl
  | cons s rest ih =>
    intro j0
    simp only [mapWithIndex, List.length_cons, ih]

theorem setLoading_length (steps : List GenerationStep) (i : Nat) :
    (setLoading steps i).length = steps.length :=
  mapWithIndex_length _ steps 0

theorem setCompleted_length (steps : List GenerationStep) (i : Nat)
    (c : String) : (setCompleted steps i c).length = steps.length :=
  mapWithIndex_length _ steps 0

theorem failLoadingSteps_length (steps : List GenerationStep) (msg : String) :
    (failLoadingSteps steps msg).length = steps.length :=
  List.length_map _ _

theorem runStages_ne_nil (steps : List GenerationStep) (i : Nat)
    (o : Except String String) (outs : List (Except String String)) :
    runStages steps i (o :: outs) ≠ [] := by
  rcases o with m | c <;> simp [runStages]

theorem snapshot_ordered (steps : List GenerationStep) (n b : Nat)
    (hlen : steps.length = n)
    (hlt : ∀ j, j < b → ∃ c, steps.get? j = some ⟨.completed, some c⟩)
    (hgt : ∀ j, b < j → j < n → steps.get? j = some ⟨.pending, none⟩) :
    ∀ p q sp sq, q < p → steps.get? p = some sp → steps.get? q = some sq →
      sp.status ≠ .pending → sq.status = .completed := by
  intro p q sp sq hqp hp hq hsp
  rcases lt_or_ge q b with h | h
  · obtain ⟨c, hc⟩ := hlt q h
    rw [hq] at hc
    have : sq = ⟨.completed, some c⟩ := Option.some.inj hc
    rw [this]
  · have hpn : p < n := by
      have h1 : p < steps.length := List.get?_eq_some.mp hp |>.1
      omega
    have h2 := hgt p (by omega) hpn
    rw [hp] at h2
    have : sp = ⟨.pending, none⟩ := Option.some.inj h2
    rw [this] at hsp
    exact absurd rfl hsp

theorem runStages_spec (n : Nat) (m : String) :
    ∀ (outs : List (Except String String)) (steps : List GenerationStep)
      (i f : Nat),
      steps.length = n →
      i + f < n →
      (∀ j, j < i → ∃ c, steps.get? j = some ⟨.completed, some c⟩) →
      (∀ j, i ≤ j → j < n → steps.get? j = some ⟨.pending, none⟩) →
      outs.get? f = some (.error m) →
      (∀ j, j < f → ∃ c, outs.get? j = some (.ok c)) →
      (∀ snap ∈ runStages steps i outs, ∀ j, i + f < j → j < n →
        snap.get? j = some ⟨.pending, none⟩) ∧
      (∃ final, (runStages steps i outs).getLast? = some final ∧
        final.get? (i + f) = some ⟨.error, some ("Error: " ++ m)⟩) ∧
      (∀ snap ∈ runStages steps i outs, ∀ p q sp sq, q < p →
        snap.get? p = some sp → snap.get? q = some sq →
        sp.status ≠ .pending → sq.status = .completed) := by
  intro outs
  induction outs with
  | nil =>
    intro steps i f hlen hin h1 h2 hfail hok
    exact absurd hfail (by simp)
  | cons o rest ih =>
    intro steps i f hlen hin h1 h2 hfail hok
    have hiltn : i < n := by omega
    -- facts about s1 := setLoading steps i
    have hs1len : (setLoading steps i).length = n := by
      rw [setLoading_length, hlen]
    have hs1lt : ∀ j, j < i →
        ∃ c, (setLoading steps i).get? j = some ⟨.completed, some c⟩ := by
      intro j hj
      obtain ⟨c, hc⟩ := h1 j hj
      refine ⟨c, ?_⟩
      rw [setLoading_get, hc]
      simp [show j ≠ i by omega]
    have hs1i : (setLoading steps i).get? i = some ⟨.loading, none⟩ := by
      rw [setLoading_get, h2 i (le_refl i) hiltn]
      simp
    have hs1gt : ∀ j, i < j → j < n →
        (setLoading steps i).get? j = some ⟨.pending, none⟩ := by
      intro j hj hjn
      rw [setLoading_get, h2 j (by omega) hjn]
      simp [show j ≠ i by omega]
    have hs1ord : ∀ p q sp sq, q < p →
        (setLoading steps i).get? p = some sp →
        (setLoading steps i).get? q = some sq →
        sp.status ≠ .pending → sq.status = .completed := by
      apply snapshot_ordered _ n i hs1len hs1lt hs1gt
    rcases o with m0 | c
    · -- the first remaining stage fails: f = 0, the catch handler runs
      have hf0 : f = 0 := by
        by_contra hf
        obtain ⟨c, hc⟩ := hok 0 (by omega)
        rw [List.get?_cons_zero] at hc
        cases hc
      subst hf0
      rw [List.get?_cons_zero] at hfail
      have hm : m = m0 := by
        cases hfail
        rfl
      subst hm
      simp only [runStages]
      -- final snapshot: failLoadingSteps (setLoading steps i) m
      have hffi : (failLoadingSteps (setLoading steps i) m).get? i =
          some ⟨.error, some ("Error: " ++ m)⟩ := by
        rw [failLoadingSteps_get, hs1i]
        simp
      have hfflt : ∀ j, j < i → ∃ c,
          (failLoadingSteps (setLoading steps i) m).get? j =
            some ⟨.completed, some c⟩ := by
        intro j hj
        obtain ⟨c, hc⟩ := hs1lt j hj
        refine ⟨c, ?_⟩
        rw [failLoadingSteps_get, hc]
        simp
      have hffgt : ∀ j, i < j → j < n →
          (failLoadingSteps (setLoading steps i) m).get? j =
            some ⟨.pending, none⟩ := by
        intro j hj hjn
        rw [failLoadingSteps_get, hs1gt j hj hjn]
        simp
      have hfflen : (failLoadingSteps (setLoading steps i) m).length = n := by
        rw [failLoadingSteps_length, hs1len]
      refine ⟨?_, ?_, ?_⟩
      · intro snap hsnap j hj hjn
        simp only [List.mem_cons, List.not_mem_nil, or_false] at hsnap
        rcases hsnap with h | h <;> subst h
        · exact hs1gt j (by omega) hjn
        · exact hffgt j (by omega) hjn
      · refine ⟨failLoadingSteps (setLoading steps i) m, rfl, ?_⟩
        rw [Nat.add_zero]
        exact hffi
      · intro snap hsnap
        simp only [List.mem_cons, List.not_mem_nil, or_false] at hsnap
        rcases hsnap with h | h <;> subst h
        · exact hs1ord
        · apply snapshot_ordered _ n i hfflen hfflt hffgt
    · -- the first remaining stage succeeds: recurse on the rest
      cases f with
      | zero =>
        rw [List.get?_cons_zero] at hfail
        cases hfail
      | succ f =>
        rw [List.get?_cons_succ] at hfail
        have hok2 : ∀ j, j < f → ∃ c', rest.get? j = some (.ok c') := by
          intro j hj
          obtain ⟨c', hc'⟩ := hok (j + 1) (by omega)
          rw [List.get?_cons_succ] at hc'
          exact ⟨c', hc'⟩
        -- facts about s2 := setCompleted (setLoading steps i) i c
        have hs2len : (setCompleted (setLoading steps i) i c).length = n := by
          rw [setCompleted_length, hs1len]
        have hs2lt : ∀ j, j < i + 1 → ∃ c',
            (setCompleted (setLoading steps i) i c).get? j =
              some ⟨.completed, some c'⟩ := by
          intro j hj
          rcases lt_or_ge j i with h | h
          · obtain ⟨c', hc'⟩ := hs1lt j h
            refine ⟨c', ?_⟩
            rw [setCompleted_get, hc']
            simp [show j ≠ i by omega]
          · have hji : j = i := by omega
            subst hji
            refine ⟨c, ?_⟩
            rw [setCompleted_get, hs1i]
            simp
        have hs2ge : ∀ j, i + 1 ≤ j → j < n →
            (setCompleted (setLoading steps i) i c).get? j =
              some ⟨.pending, none⟩ := by
          intro j hj hjn
          rw [setCompleted_get, hs1gt j (by omega) hjn]
          simp [show j ≠ i by omega]
        obtain ⟨ha, hb, hc2⟩ := ih (setCompleted (setLoading steps i) i c)
          (i + 1) f hs2len (by omega) hs2lt hs2ge hfail hok2
        have htrace : runStages steps i (Except.ok c :: rest) =
            setLoading steps i :: setCompleted (setLoading steps i) i c ::
              runStages (setCompleted (setLoading steps i) i c) (i + 1)
                rest := rfl
        rw [htrace]
        have hT : runStages (setCompleted (setLoading steps i) i c) (i + 1)
            rest ≠ [] := by
          rcases hr : rest with _ | ⟨o2, rest2⟩
          · rw [hr] at hfail
            exact absurd hfail (by simp)
          · exact runStages_ne_nil _ _ o2 rest2
        refine ⟨?_, ?_, ?_⟩
        · intro snap hsnap j hj hjn
          simp only [List.mem_cons] at hsnap
          rcases hsnap with h | h | h
          · subst h
            exact hs1gt j (by omega) hjn
          · subst h
            exact hs2ge j (by omega) hjn
          · have := ha snap h j (by omega) hjn
            exact this
        · obtain ⟨final, hfin, hfink⟩ := hb
          refine ⟨final, ?_, ?_⟩
          · rcases hTc : runStages (setCompleted (setLoading steps i) i c)
                (i + 1) rest with _ | ⟨t, T2⟩
            · exact absurd hTc hT
            · rw [List.getLast?_cons_cons, List.getLast?_cons_cons]
              rw [hTc] at hfin
              exact hfin
          · have : i + 1 + f = i + (f + 1) := by omega
            rw [this] at hfink
            exact hfink
        · intro snap hsnap
          simp only [List.mem_cons] at hsnap
          rcases hsnap with h | h | h
          · subst h
            exact hs1ord
          · subst h
            exact snapshot_ordered _ n (i + 1) hs2len hs2lt
              (fun j hj hjn => hs2ge j (by omega) hjn)
          · exact hc2 snap h

theorem initSteps_get (n j : Nat) (hj : j < n) :
    (initSteps n).get? j = some ⟨.pending, none⟩ := by
  unfold initSteps
  rw [List.get?_eq_get (by simpa using hj)]
  simp

/-- C8: when stage `k` of the pipeline fails with a terminal error (all
earlier stages having succeeded), then throughout the run's state
history: no stage after `k` ever leaves `pending`; the final state marks
stage `k` as `error` with `Error: <message>` attached as its content;
and in every intermediate state a stage is non-pending only when every
earlier stage has completed — i.e. a stage only starts after the prior
stage completes. -/
theorem pipeline_failure_halts (n k : Nat) (m : String)
    (outcomes : List (Except String String))
    (hk : k < n)
    (hfail : outcomes.get? k = some (.error m))
    (hok : ∀ j, j < k → ∃ c, outcomes.get? j = some (.ok c)) :
    (∀ snap ∈ generateRealStrategy outcomes n, ∀ j, k < j → j < n →
      snap.get? j = some ⟨.pending, none⟩) ∧
    (∃ final, (generateRealStrategy outcomes n).getLast? = some final ∧
      final.get? k = some ⟨.error, some ("Error: " ++ m)⟩) ∧
    (∀ snap ∈ generateRealStrategy outcomes n, ∀ p q sp sq, q < p →
      snap.get? p = some sp → snap.get? q = some sq →
      sp.status ≠ .pending → sq.status = .completed) := by
  have h := runStages_spec n m outcomes (initSteps n) 0 k
    (by simp [initSteps])
    (by omega)
    (fun j hj => absurd hj (by omega))
    (fun j _ hjn => initSteps_get n j hjn)
    hfail hok
  simp only [Nat.zero_add] at h
  exact h

/-- Witness for `pipeline_failure_halts`: stage 1 of a 3-stage pipeline
rejects with `boom`; stage 2 stays pending throughout and the final
state carries the error on stage 1. -/
theorem pipeline_failure_halts_witness :
    (∀ snap ∈ generateRealStrategy [Except.ok "a", Except.error "boom"] 3,
      ∀ j, 1 < j → j < 3 → snap.get? j = some ⟨.pending, none⟩) ∧
    (∃ final, (generateRealStrategy
        [Except.ok "a", Except.error "boom"] 3).getLast? = some final ∧
      final.get? 1 = some ⟨.error, some ("Error: " ++ "boom")⟩) ∧
    (∀ snap ∈ generateRealStrategy [Except.ok "a", Except.error "boom"] 3,
      ∀ p q sp sq, q < p → snap.get? p = some sp → snap.get? q = some sq →
        sp.status ≠ .pending → sq.status = .completed) :=
  pipeline_failure_halts 3 1 "boom" [Except.ok "a", Except.error "boom"]
    (by omega) rfl
    (fun j hj => by
      have hj0 : j = 0 := by omega
      subst hj0
      exact ⟨"a", rfl⟩)

/-! ### C10 — per-batch failure tolerance of `implementFunctionsFromJSON` -/

/-- One entry of the architecture JSON's `functions` array, as far as the
batching and placeholder logic reads it. -/
structure FunctionSignature where
  name : String
  signature : String
  purpose : String

/-- An implemented function: `{ name, code }`. -/
structure NamedCode where
  name : String
  code : String
  deriving Repr, DecidableEq

/-- `f.name.toLowerCase().includes('constructor')`. -/
def isConstructorFn (f : FunctionSignature) : Bool :=
  strContainsSub (strToLower f.name) "constructor"

/-- `f.signature.includes('view') || f.signature.includes('pure')`. -/
def isViewFn (f : FunctionSignature) : Bool :=
  strContainsSub f.signature "view" || strContainsSub f.signature "pure"

/-- The `maxBatchSize = 3` slicing loop of `batchFunctionsByType`
(`group.slice(i, i + 3)` for `i = 0, 3, 6, ...`, skipping empties). -/
def chunksOf3 : List FunctionSignature → List (List FunctionSignature)
  | [] => []
  | [a] => [[a]]
  | [a, b] => [[a, b]]
  | a :: b :: c :: rest => [a, b, c] :: chunksOf3 rest

/-- `APIServices.batchFunctionsByType`: group into constructors, view
functions and state functions, then slice each group into batches of at
most 3. -/
def batchFunctionsByType (fns : List FunctionSignature) :
    List (List FunctionSignature) :=
  chunksOf3 (fns.filter isConstructorFn) ++
  chunksOf3 (fns.filter isViewFn) ++
  chunksOf3 (fns.filter fun f => !isViewFn f && !isConstructorFn f)

/-- The error placeholder pushed for each function of a failed batch. -/
def errorPlaceholder (name msg : String) : String :=
  "// ERROR: Failed to implement " ++ name ++ "\n// " ++ msg ++
    "\nfunction " ++ name ++
    "() public \x7b\n    revert(\"Function implementation failed\");\n\x7d"

/-- `APIServices.implementFunctionsFromJSON`: parse the architecture
(the outcome of `parseArchitectureJSON` is supplied as an `Except`, and
a parse failure rejects the promise), batch the functions, and run each
batch through the rate limiter (the network outcome of batch `i` is the
opaque `batchOutcome i`); a failed batch is caught and contributes one
error placeholder per function instead of failing the stage. -/
def implementFunctionsFromJSON
    (parsed : Except String (List FunctionSignature))
    (batchOutcome : Nat → Except String (List NamedCode)) :
    Except String (List NamedCode) :=
  match parsed with
  | .error e => .error e
  | .ok fns =>
    .ok (((batchFunctionsByType fns).enum.map fun p =>
      match batchOutcome p.1 with
      | .ok l => l
      | .error msg =>
        p.2.map fun f => ⟨f.name, errorPlaceholder f.name msg⟩).join)

/-- C10: for every architecture accepted by `parseArchitectureJSON`, the
promise returned by `implementFunctionsFromJSON` resolves (never
rejects) no matter which batches' implementation calls reject; and every
function of a batch whose call rejected with message `msg` contributes
the placeholder entry carrying its name and the error-comment body. -/
theorem implementFunctions_batch_failure_placeholders
    (fns : List FunctionSignature)
    (batchOutcome : Nat → Except String (List NamedCode)) :
    ∃ l, implementFunctionsFromJSON (.ok fns) batchOutcome = .ok l ∧
      ∀ i b msg f, (batchFunctionsByType fns).get? i = some b →
        batchOutcome i = .error msg → f ∈ b →
        (⟨f.name, errorPlaceholder f.name msg⟩ : NamedCode) ∈ l := by
  refine ⟨_, rfl, ?_⟩
  intro i b msg f hb hout hf
  apply List.mem_join.mpr
  refine ⟨b.map fun g => ⟨g.name, errorPlaceholder g.name msg⟩, ?_, ?_⟩
  · apply List.mem_map.mpr
    refine ⟨(i, b), ?_, ?_⟩
    · apply List.get?_mem
      rw [List.get?_enum, hb]
      rfl
    · dsimp only
      rw [hout]
  · exact List.mem_map.mpr ⟨f, hf, rfl⟩

/-- Witness for `implementFunctions_batch_failure_placeholders`: a
one-function architecture whose single batch fails with `HTTP 500`
still resolves, with the placeholder implementation present. -/
theorem implementFunctions_batch_failure_placeholders_witness :
    ∃ l, implementFunctionsFromJSON
        (.ok [⟨"mint", "function mint() public", "p"⟩])
        (fun _ => .error "HTTP 500") = .ok l ∧
      (⟨"mint", errorPlaceholder "mint" "HTTP 500"⟩ : NamedCode) ∈ l := by
  obtain ⟨l, hl, hmem⟩ := implementFunctions_batch_failure_placeholders
    [⟨"mint", "function mint() public", "p"⟩] (fun _ => .error "HTTP 500")
  refine ⟨l, hl, ?_⟩
  exact hmem 0 [⟨"mint", "function mint() public", "p"⟩] "HTTP 500"
    ⟨"mint", "function mint() public", "p"⟩ (by rfl) rfl
    (List.mem_singleton.mpr rfl)

/-! ### C9 — credential storage round-trip (`utils/storage.ts`)

The storage helpers are modelled together with the platform primitives
they call: `btoa`/`atob` (base64 over Latin-1 code units; `btoa` throws
on any character above U+00FF, modelled as `none`), `JSON.stringify`
(for the one-field object `{ openrouter: string }`) and `JSON.parse`
(Modelled from the spec: a parser for the exact object shape
`saveAPIKeys` serialises, since only such blobs reach it on the
round-trip path), and `localStorage` as an `Option String` cell. -/

/-- The base64 alphabet used by `btoa`/`atob`. -/
def b64Alphabet : List Char :=
  "ABCDEFGHIJKLMNOPQRSTUVWXYZabcdefghijklmnopqrstuvwxyz0123456789+/".data

/-- Sextet value to base64 character. -/
def b64Char (n : Nat) : Char := b64Alphabet.getD n 'A'

def b64ValAux : List Char → Char → Nat → Option Nat
  | [], _, _ => none
  | a :: rest, c, k => if a = c then some k else b64ValAux rest c (k + 1)

/-- Base64 character to sextet value. -/
def b64Val (c : Char) : Option Nat := b64ValAux b64Alphabet c 0

theorem b64Val_b64Char : ∀ n, n < 64 → b64Val (b64Char n) = some n := by
  decide

theorem b64Char_ne_pad : ∀ n, n < 64 → b64Char n ≠ '=' := by
  decide

/-- `btoa` on a list of Latin-1 code units: encode groups of three bytes
as four sextets, padding the final group with `=`. -/
def btoaBytes : List Nat → List Char
  | [] => []
  | [a] => [b64Char (a / 4), b64Char (a % 4 * 16), '=', '=']
  | [a, b] => [b64Char (a / 4), b64Char (a % 4 * 16 + b / 16),
      b64Char (b % 16 * 4), '=']
  | a :: b :: c :: rest =>
    b64Char (a / 4) :: b64Char (a % 4 * 16 + b / 16) ::
      b64Char (b % 16 * 4 + c / 64) :: b64Char (c % 64) :: btoaBytes rest

/-- `atob` restricted to well-formed base64 (which is all `btoa` ever
produces): decode groups of four characters back into bytes. -/
def atobBytes : List Char → Option (List Nat)
  | [] => some []
  | c1 :: c2 :: c3 :: c4 :: rest =>
    match b64Val c1, b64Val c2 with
    | some v1, some v2 =>
      if c3 = '=' then
        if c4 = '=' ∧ rest = [] then some [v1 * 4 + v2 / 16] else none
      else
        match b64Val c3 with
        | some v3 =>
          if c4 = '=' then
            if rest = [] then
              some [v1 * 4 + v2 / 16, v2 % 16 * 16 + v3 / 4]
            else none
          else
            match b64Val c4 with
            | some v4 =>
              (atobBytes rest).map fun l =>
                (v1 * 4 + v2 / 16) :: (v2 % 16 * 16 + v3 / 4) ::
                  (v3 % 4 * 64 + v4) :: l
            | none => none
        | none => none
    | _, _ => none
  | _ => none

theorem atobBytes_btoaBytes :
    ∀ bs : List Nat, (∀ b ∈ bs, b < 256) →
      atobBytes (btoaBytes bs) = some bs
  | [], _ => rfl
  | [a], h => by
    have ha : a < 256 := h a (by simp)
    simp only [btoaBytes, atobBytes]
    rw [b64Val_b64Char _ (by omega), b64Val_b64Char _ (by omega)]
    dsimp only
    simp
    omega
  | [a, b], h => by
    have ha : a < 256 := h a (by simp)
    have hb : b < 256 := h b (by simp)
    simp only [btoaBytes, atobBytes]
    rw [b64Val_b64Char _ (by omega), b64Val_b64Char _ (by omega)]
    dsimp only
    rw [if_neg (b64Char_ne_pad _ (by omega)),
      b64Val_b64Char _ (by omega)]
    dsimp only
    simp
    omega
  | a :: b :: c :: rest, h => by
    have ha : a < 256 := h a (by simp)
    have hb : b < 256 := h b (by simp)
    have hc : c < 256 := h c (by simp)
    have ih := atobBytes_btoaBytes rest
      (fun x hx => h x (List.mem_cons_of_mem a
        (List.mem_cons_of_mem b (List.mem_cons_of_mem c hx))))
    simp only [btoaBytes, atobBytes]
    rw [b64Val_b64Char _ (by omega), b64Val_b64Char _ (by omega)]
    dsimp only
    rw [if_neg (b64Char_ne_pad _ (by omega)),
      b64Val_b64Char _ (by omega)]
    dsimp only
    rw [if_neg (b64Char_ne_pad _ (by omega)),
      b64Val_b64Char _ (by omega)]
    rw [ih]
    simp
    omega

/-- Lowercase hex digit, as `JSON.stringify` emits in `\u00XX` escapes. -/
def hexDigitChar (n : Nat) : Char := "0123456789abcdef".data.getD n '0'

/-- Hex digit value, as `JSON.parse` reads `\uXXXX` escapes. -/
def hexVal (c : Char) : Option Nat :=
  if '0' ≤ c ∧ c ≤ '9' then some (c.toNat - 48)
  else if 'a' ≤ c ∧ c ≤ 'f' then some (c.toNat - 87)
  else if 'A' ≤ c ∧ c ≤ 'F' then some (c.toNat - 55)
  else none

theorem hexVal_hexDigitChar : ∀ n, n < 16 → hexVal (hexDigitChar n) = some n := by
  decide

/-- `JSON.stringify`'s QuoteJSONString escaping of a single character:
quote and backslash are escaped, the five named control characters get
their short escapes, other control characters become `\u00XX`, and
everything else is copied verbatim. -/
def escapeChar (c : Char) : List Char :=
  if c = '"' then ['\\', '"']
  else if c = '\\' then ['\\', '\\']
  else if c = Char.ofNat 8 then ['\\', 'b']
  else if c = Char.ofNat 9 then ['\\', 't']
  else if c = Char.ofNat 10 then ['\\', 'n']
  else if c = Char.ofNat 12 then ['\\', 'f']
  else if c = Char.ofNat 13 then ['\\', 'r']
  else if c.toNat < 32 then
    ['\\', 'u', '0', '0', hexDigitChar (c.toNat / 16),
      hexDigitChar (c.toNat % 16)]
  else [c]

/-- Escape a whole character sequence. -/
def escapeList (l : List Char) : List Char := (l.map escapeChar).join

/-- A quoted JSON string literal. -/
def quoteJSON (s : String) : List Char :=
  '"' :: (escapeList s.data ++ ['"'])

/-- The inverse of a single short escape, as `JSON.parse` reads it. -/
def escapeCode (e : Char) : Option Char :=
  if e = '"' then some '"'
  else if e = '\\' then some '\\'
  else if e = '/' then some '/'
  else if e = 'b' then some (Char.ofNat 8)
  else if e = 'f' then some (Char.ofNat 12)
  else if e = 'n' then some (Char.ofNat 10)
  else if e = 'r' then some (Char.ofNat 13)
  else if e = 't' then some (Char.ofNat 9)
  else none

/-- `JSON.parse`'s reading of a string body after the opening quote:
consume characters up to the closing quote, unescaping; raw control
characters are a syntax error.  Returns the decoded characters and the
remaining input. -/
def parseStringBody : List Char → Option (List Char × List Char)
  | [] => none
  | c :: rest =>
    if c = '"' then some ([], rest)
    else if c = '\\' then
      match rest with
      | [] => none
      | e :: rest2 =>
        if e = 'u' then
          match rest2 with
          | h1 :: h2 :: h3 :: h4 :: rest3 =>
            match hexVal h1, hexVal h2, hexVal h3, hexVal h4 with
            | some x1, some x2, some x3, some x4 =>
              (parseStringBody rest3).map fun p =>
                (Char.ofNat (x1 * 4096 + x2 * 256 + x3 * 16 + x4) :: p.1, p.2)
            | _, _, _, _ => none
          | _ => none
        else
          match escapeCode e with
          | some ec => (parseStringBody rest2).map fun p => (ec :: p.1, p.2)
          | none => none
    else if c.toNat < 32 then none
    else (parseStringBody rest).map fun p => (c :: p.1, p.2)

theorem parseStringBody_quote (tail : List Char) :
    parseStringBody ('"' :: tail) = some ([], tail) := by
  unfold parseStringBody
  rw [if_pos rfl]

theorem parseStringBody_cons_plain (c : Char) (tail : List Char)
    (h1 : ¬ c = '"') (h2 : ¬ c = '\\') (h3 : ¬ c.toNat < 32) :
    parseStringBody (c :: tail) =
      (parseStringBody tail).map fun p => (c :: p.1, p.2) := by
  conv_lhs => unfold parseStringBody
  rw [if_neg h1, if_neg h2, if_neg h3]

theorem parseStringBody_escape_simple (e ec : Char) (tail : List Char)
    (he : ¬ e = 'u') (hec : escapeCode e = some ec) :
    parseStringBody ('\\' :: e :: tail) =
      (parseStringBody tail).map fun p => (ec :: p.1, p.2) := by
  conv_lhs => unfold parseStringBody
  rw [if_neg (by decide), if_pos rfl]
  dsimp only
  rw [if_neg he, hec]

theorem parseStringBody_escape_u (h1 h2 h3 h4 : Char) (x1 x2 x3 x4 : Nat)
    (tail : List Char)
    (e1 : hexVal h1 = some x1) (e2 : hexVal h2 = some x2)
    (e3 : hexVal h3 = some x3) (e4 : hexVal h4 = some x4) :
    parseStringBody ('\\' :: 'u' :: h1 :: h2 :: h3 :: h4 :: tail) =
      (parseStringBody tail).map fun p =>
        (Char.ofNat (x1 * 4096 + x2 * 256 + x3 * 16 + x4) :: p.1, p.2) := by
  conv_lhs => unfold parseStringBody
  rw [if_neg (by decide), if_pos rfl]
  dsimp only
  rw [if_pos rfl]
  rw [e1, e2, e3, e4]

theorem parseStringBody_escapeList :
    ∀ (l rest : List Char),
      parseStringBody (escapeList l ++ '"' :: rest) = some (l, rest) := by
  intro l
  induction l with
  | nil =>
    intro rest
    exact parseStringBody_quote rest
  | cons c l ih =>
    intro rest
    have hsplit : escapeList (c :: l) = escapeChar c ++ escapeList l := by
      simp [escapeList]
    rw [hsplit, List.append_assoc]
    by_cases hq : c = '"'
    · subst hq
      rw [show escapeChar '"' = ['\\', '"'] from rfl]
      rw [show (['\\', '"'] : List Char) ++ (escapeList l ++ '"' :: rest) =
        '\\' :: '"' :: (escapeList l ++ '"' :: rest) from rfl]
      rw [parseStringBody_escape_simple '"' '"' _ (by decide) (by decide),
        ih rest]
      rfl
    · by_cases hbs : c = '\\'
      · subst hbs
        rw [show escapeChar '\\' = ['\\', '\\'] from rfl]
        rw [show (['\\', '\\'] : List Char) ++ (escapeList l ++ '"' :: rest) =
          '\\' :: '\\' :: (escapeList l ++ '"' :: rest) from rfl]
        rw [parseStringBody_escape_simple '\\' '\\' _ (by decide) (by decide),
          ih rest]
        rfl
      · by_cases h8 : c = Char.ofNat 8
        · subst h8
          rw [show escapeChar (Char.ofNat 8) = ['\\', 'b'] from by decide]
          rw [show (['\\', 'b'] : List Char) ++ (escapeList l ++ '"' :: rest) =
            '\\' :: 'b' :: (escapeList l ++ '"' :: rest) from rfl]
          rw [parseStringBody_escape_simple 'b' (Char.ofNat 8) _
            (by decide) (by decide), ih rest]
          rfl
        · by_cases h9 : c = Char.ofNat 9
          · subst h9
            rw [show escapeChar (Char.ofNat 9) = ['\\', 't'] from by decide]
            rw [show (['\\', 't'] : List Char) ++
              (escapeList l ++ '"' :: rest) =
              '\\' :: 't' :: (escapeList l ++ '"' :: rest) from rfl]
            rw [parseStringBody_escape_simple 't' (Char.ofNat 9) _
              (by decide) (by decide), ih rest]
            rfl
          · by_cases h10 : c = Char.ofNat 10
            · subst h10
              rw [show escapeChar (Char.ofNat 10) = ['\\', 'n'] from by decide]
              rw [show (['\\', 'n'] : List Char) ++
                (escapeList l ++ '"' :: rest) =
                '\\' :: 'n' :: (escapeList l ++ '"' :: rest) from rfl]
              rw [parseStringBody_escape_simple 'n' (Char.ofNat 10) _
                (by decide) (by decide), ih rest]
              rfl
            · by_cases h12 : c = Char.ofNat 12
              · subst h12
                rw [show escapeChar (Char.ofNat 12) = ['\\', 'f'] from by
                  decide]
                rw [show (['\\', 'f'] : List Char) ++
                  (escapeList l ++ '"' :: rest) =
                  '\\' :: 'f' :: (escapeList l ++ '"' :: rest) from rfl]
                rw [parseStringBody_escape_simple 'f' (Char.ofNat 12) _
                  (by decide) (by decide), ih rest]
                rfl
              · by_cases h13 : c = Char.ofNat 13
                · subst h13
                  rw [show escapeChar (Char.ofNat 13) = ['\\', 'r'] from by
                    decide]
                  rw [show (['\\', 'r'] : List Char) ++
                    (escapeList l ++ '"' :: rest) =
                    '\\' :: 'r' :: (escapeList l ++ '"' :: rest) from rfl]
                  rw [parseStringBody_escape_simple 'r' (Char.ofNat 13) _
                    (by decide) (by decide), ih rest]
                  rfl
                · by_cases hctl : c.toNat < 32
                  · have hesc : escapeChar c =
                        ['\\', 'u', '0', '0', hexDigitChar (c.toNat / 16),
                          hexDigitChar (c.toNat % 16)] := by
                      unfold escapeChar
                      rw [if_neg hq, if_neg hbs, if_neg h8, if_neg h9,
                        if_neg h10, if_neg h12, if_neg h13, if_pos hctl]
                    rw [hesc]
                    rw [show (['\\', 'u', '0', '0',
                        hexDigitChar (c.toNat / 16),
                        hexDigitChar (c.toNat % 16)] : List Char) ++
                      (escapeList l ++ '"' :: rest) =
                      '\\' :: 'u' :: '0' :: '0' ::
                        hexDigitChar (c.toNat / 16) ::
                        hexDigitChar (c.toNat % 16) ::
                        (escapeList l ++ '"' :: rest) from rfl]
                    rw [parseStringBody_escape_u '0' '0'
                      (hexDigitChar (c.toNat / 16))
                      (hexDigitChar (c.toNat % 16)) 0 0
                      (c.toNat / 16) (c.toNat % 16) _
                      (by decide) (by decide)
                      (hexVal_hexDigitChar _ (by omega))
                      (hexVal_hexDigitChar _ (by omega)), ih rest]
                    have harith : 0 * 4096 + 0 * 256 + c.toNat / 16 * 16 +
                        c.toNat % 16 = c.toNat := by omega
                    rw [harith, Char.ofNat_toNat]
                    rfl
                  · have hesc : escapeChar c = [c] := by
                      unfold escapeChar
                      rw [if_neg hq, if_neg hbs, if_neg h8, if_neg h9,
                        if_neg h10, if_neg h12, if_neg h13, if_neg hctl]
                    rw [hesc]
                    rw [show ([c] : List Char) ++
                      (escapeList l ++ '"' :: rest) =
                      c :: (escapeList l ++ '"' :: rest) from rfl]
                    rw [parseStringBody_cons_plain c _ hq hbs hctl, ih rest]
                    rfl

theorem hexDigitChar_lt (n : Nat) : (hexDigitChar n).toNat < 256 := by
  unfold hexDigitChar
  by_cases h : n < 16
  · interval_cases n <;> decide
  · rw [List.getD_eq_default _ _ (by simpa using Nat.le_of_not_lt h)]
    decide

theorem escapeChar_latin1 (c : Char) (h : c.toNat < 256) :
    ∀ d ∈ escapeChar c, d.toNat < 256 := by
  unfold escapeChar
  split_ifs with h1 h2 h3 h4 h5 h6 h7 h8
  · intro d hd; fin_cases hd <;> decide
  · intro d hd; fin_cases hd <;> decide
  · intro d hd; fin_cases hd <;> decide
  · intro d hd; fin_cases hd <;> decide
  · intro d hd; fin_cases hd <;> decide
  · intro d hd; fin_cases hd <;> decide
  · intro d hd; fin_cases hd <;> decide
  · intro d hd
    fin_cases hd
    · decide
    · decide
    · decide
    · decide
    · exact hexDigitChar_lt _
    · exact hexDigitChar_lt _
  · intro d hd
    rw [List.mem_singleton] at hd
    subst hd
    exact h

theorem escapeList_latin1 :
    ∀ (l : List Char), (∀ c ∈ l, c.toNat < 256) →
      ∀ d ∈ escapeList l, d.toNat < 256 := by
  intro l
  induction l with
  | nil =>
    intro _ d hd
    simp [escapeList] at hd
  | cons c l ih =>
    intro h d hd
    have hsplit : escapeList (c :: l) = escapeChar c ++ escapeList l := by
      simp [escapeList]
    rw [hsplit] at hd
    rcases List.mem_append.mp hd with h1 | h2
    · exact escapeChar_latin1 c (h c (by simp)) d h1
    · exact ih (fun x hx => h x (List.mem_cons_of_mem _ hx)) d h2

theorem quoteJSON_latin1 (s : String) (h : ∀ c ∈ s.data, c.toNat < 256) :
    ∀ d ∈ quoteJSON s, d.toNat < 256 := by
  intro d hd
  unfold quoteJSON at hd
  rcases List.mem_cons.mp hd with hq | hd2
  · subst hq; decide
  rcases List.mem_append.mp hd2 with h1 | h2
  · exact escapeList_latin1 s.data h d h1
  · have hq := List.mem_singleton.mp h2
    subst hq; decide

/-- The model of `localStorage` for the single key the module uses is an
`Option String` cell: `none` after `removeItem`, `some v` after
`setItem(…, v)`. `btoa` (and hence `simpleEncrypt`) is modelled as
returning `none` where the real one throws a `DOMException`, namely on
input with a code unit above U+00FF. -/
structure APIKeys where
  openrouter : String
deriving DecidableEq

/-- `btoa`: Latin-1 domain check, then base64 over the code units. -/
def btoaString (s : String) : Option String :=
  if s.data.all (fun c => c.toNat < 256) then
    some (String.mk (btoaBytes (s.data.map Char.toNat)))
  else none

/-- `atob` restricted to well-formed base64, `none` where it throws. -/
def atobString (s : String) : Option String :=
  (atobBytes s.data).map fun bs => String.mk (bs.map Char.ofNat)

def simpleEncrypt (text : String) : Option String := btoaString text

/-- `simpleDecrypt`: `atob` with the catch-all returning `''`. -/
def simpleDecrypt (encoded : String) : String :=
  match atobString encoded with
  | some t => t
  | none => ""

/-- `JSON.stringify` on the one-field object `\x7b openrouter: … \x7d`. -/
def stringifyKeys (keys : APIKeys) : String :=
  String.mk (Char.ofNat 123 ::
    (quoteJSON "openrouter" ++ ':' ::
      (quoteJSON keys.openrouter ++ [Char.ofNat 125])))

/-- Modelled from the spec: `JSON.parse` on the exact object shape
`saveAPIKeys` serialises (the only blobs that reach it on the round-trip
path): an object with the single string field `openrouter`. -/
def parseKeysJSON (l : List Char) : Option APIKeys :=
  match l with
  | c0 :: c1 :: rest =>
    if c0 = Char.ofNat 123 ∧ c1 = '"' then
      match parseStringBody rest with
      | some (key, rest2) =>
        match rest2 with
        | c2 :: c3 :: rest3 =>
          if c2 = ':' ∧ c3 = '"' then
            match parseStringBody rest3 with
            | some (val, rest4) =>
              if rest4 = [Char.ofNat 125] ∧ key = "openrouter".data then
                some ⟨String.mk val⟩
              else none
            | none => none
          else none
        | _ => none
      | none => none
    else none
  | _ => none

/-- `saveAPIKeys`: encrypt the stringified keys and store them.  The
result is the new cell contents; `none` models the `btoa` throw (the
`setItem` is then never reached). -/
def saveAPIKeys (keys : APIKeys) : Option (Option String) :=
  match simpleEncrypt (stringifyKeys keys) with
  | some encrypted => some (some encrypted)
  | none => none

/-- `loadAPIKeys`: `getItem`, falsy check (`null` or `''`), decrypt,
parse, and return the keys only when `keys.openrouter` is truthy. -/
def loadAPIKeys (store : Option String) : Option APIKeys :=
  match store with
  | none => none
  | some stored =>
    if stored = "" then none
    else
      match parseKeysJSON (simpleDecrypt stored).data with
      | some keys => if keys.openrouter = "" then none else some keys
      | none => none

/-- `clearAPIKeys`: `removeItem` empties the cell. -/
def clearAPIKeys (_store : Option String) : Option String := none

/-- `hasAPIKeys(): boolean` is `loadAPIKeys() !== null`. -/
def hasAPIKeys (store : Option String) : Bool :=
  (loadAPIKeys store).isSome

theorem btoaBytes_ne_nil (a : Nat) (l : List Nat) :
    btoaBytes (a :: l) ≠ [] := by
  match l with
  | [] => simp [btoaBytes]
  | [b] => simp [btoaBytes]
  | b :: c :: rest => simp [btoaBytes]

theorem stringifyKeys_latin1 (keys : APIKeys)
    (h : ∀ c ∈ keys.openrouter.data, c.toNat < 256) :
    ∀ d ∈ (stringifyKeys keys).data, d.toNat < 256 := by
  intro d hd
  replace hd : d ∈ Char.ofNat 123 ::
      (quoteJSON "openrouter" ++ ':' ::
        (quoteJSON keys.openrouter ++ [Char.ofNat 125])) := hd
  rcases List.mem_cons.mp hd with hq | hd1
  · subst hq; decide
  rcases List.mem_append.mp hd1 with h1 | h2
  · exact quoteJSON_latin1 _ (by decide) d h1
  rcases List.mem_cons.mp h2 with hq | h3
  · subst hq; decide
  rcases List.mem_append.mp h3 with h4 | h5
  · exact quoteJSON_latin1 _ h d h4
  · have hq := List.mem_singleton.mp h5
    subst hq; decide

theorem btoaString_eq_some (s : String)
    (h : ∀ c ∈ s.data, c.toNat < 256) :
    btoaString s = some (String.mk (btoaBytes (s.data.map Char.toNat))) := by
  unfold btoaString
  rw [if_pos (by rw [List.all_eq_true]; intro c hc; simpa using h c hc)]

theorem atobString_btoaString (s : String)
    (h : ∀ c ∈ s.data, c.toNat < 256) :
    atobString (String.mk (btoaBytes (s.data.map Char.toNat))) = some s := by
  have hbytes : ∀ b ∈ s.data.map Char.toNat, b < 256 := by
    intro b hb
    rcases List.mem_map.mp hb with ⟨c, hc, hcb⟩
    subst hcb
    exact h c hc
  unfold atobString
  rw [show (String.mk (btoaBytes (s.data.map Char.toNat))).data =
    btoaBytes (s.data.map Char.toNat) from rfl]
  rw [atobBytes_btoaBytes _ hbytes]
  dsimp only [Option.map]
  have hmap : (s.data.map Char.toNat).map Char.ofNat = s.data := by
    rw [List.map_map]
    have hcongr : ∀ c ∈ s.data, (Char.ofNat ∘ Char.toNat) c = id c := by
      intro c _
      simp [Char.ofNat_toNat]
    rw [List.map_congr_left hcongr, List.map_id]
  rw [hmap]

theorem parseKeysJSON_stringifyKeys (keys : APIKeys) :
    parseKeysJSON (stringifyKeys keys).data = some keys := by
  have hdata : (stringifyKeys keys).data =
      Char.ofNat 123 :: '"' :: (escapeList "openrouter".data ++
        '"' :: ':' :: '"' :: (escapeList keys.openrouter.data ++
          '"' :: [Char.ofNat 125])) := by
    simp [stringifyKeys, quoteJSON]
  rw [hdata]
  conv_lhs => unfold parseKeysJSON
  dsimp only
  rw [if_pos ⟨rfl, rfl⟩]
  rw [parseStringBody_escapeList]
  dsimp only
  rw [if_pos ⟨rfl, rfl⟩]
  rw [parseStringBody_escapeList]
  dsimp only
  rw [if_pos ⟨rfl, rfl⟩]

/-- C9 (counterexample): the round trip does not hold for every non-empty
key.  For the non-empty, non-Latin-1 key `"Ā"` (U+0100), `btoa` throws
inside `saveAPIKeys` (modelled as `none`), so the save never stores
anything and no subsequent `loadAPIKeys` can return the key. -/
theorem storage_roundtrip_counterexample :
    (APIKeys.mk "Ā").openrouter ≠ "" ∧
      saveAPIKeys (APIKeys.mk "Ā") = none := by
  decide

/-- C9 (amended): for every `APIKeys` value whose `openrouter` field is a
non-empty string of Latin-1 characters (code units ≤ 255, the domain of
`btoa`), `saveAPIKeys` succeeds and `loadAPIKeys` on the stored cell
returns the same keys; and after `clearAPIKeys` (from any cell state),
`loadAPIKeys` returns null and `hasAPIKeys` returns false. -/
theorem storage_roundtrip_latin1 (k : APIKeys) (s0 : Option String)
    (hne : k.openrouter ≠ "")
    (hlat : ∀ c ∈ k.openrouter.data, c.toNat < 256) :
    (∃ cell, saveAPIKeys k = some (some cell) ∧
        loadAPIKeys (some cell) = some k ∧
        hasAPIKeys (some cell) = true) ∧
      loadAPIKeys (clearAPIKeys s0) = none ∧
      hasAPIKeys (clearAPIKeys s0) = false := by
  have hslat := stringifyKeys_latin1 k hlat
  have henc := btoaString_eq_some (stringifyKeys k) hslat
  have hdm : (stringifyKeys k).data.map Char.toNat =
      (Char.ofNat 123).toNat ::
        ((quoteJSON "openrouter" ++ ':' ::
          (quoteJSON k.openrouter ++ [Char.ofNat 125])).map Char.toNat) :=
    rfl
  have hcellne :
      String.mk (btoaBytes ((stringifyKeys k).data.map Char.toNat)) ≠ "" := by
    intro hemp
    have h0 : btoaBytes ((stringifyKeys k).data.map Char.toNat) = [] :=
      congrArg String.data hemp
    rw [hdm] at h0
    exact btoaBytes_ne_nil _ _ h0
  have hdec :
      simpleDecrypt
          (String.mk (btoaBytes ((stringifyKeys k).data.map Char.toNat))) =
        stringifyKeys k := by
    unfold simpleDecrypt
    rw [atobString_btoaString (stringifyKeys k) hslat]
  have hload :
      loadAPIKeys
          (some (String.mk
            (btoaBytes ((stringifyKeys k).data.map Char.toNat)))) =
        some k := by
    unfold loadAPIKeys
    dsimp only
    rw [if_neg hcellne, hdec, parseKeysJSON_stringifyKeys]
    dsimp only
    rw [if_neg hne]
  refine ⟨⟨String.mk (btoaBytes ((stringifyKeys k).data.map Char.toNat)),
    ?_, hload, ?_⟩, rfl, rfl⟩
  · unfold saveAPIKeys simpleEncrypt
    rw [henc]
  · unfold hasAPIKeys
    rw [hload]
    rfl

/-- Witness for C9 at the concrete ASCII key `"sk-test"` and the cell
state `some "junk"` before `clearAPIKeys`. -/
theorem storage_roundtrip_latin1_witness :
    (APIKeys.mk "sk-test").openrouter ≠ "" ∧
      (∀ c ∈ (APIKeys.mk "sk-test").openrouter.data, c.toNat < 256) ∧
      ((∃ cell, saveAPIKeys (APIKeys.mk "sk-test") = some (some cell) ∧
          loadAPIKeys (some cell) = some (APIKeys.mk "sk-test") ∧
          hasAPIKeys (some cell) = true) ∧
        loadAPIKeys (clearAPIKeys (some "junk")) = none ∧
        hasAPIKeys (clearAPIKeys (some "junk")) = false) :=
  ⟨by decide, by decide,
    storage_roundtrip_latin1 (APIKeys.mk "sk-test") (some "junk")
      (by decide) (by decide)⟩

end SolidityDev
